import Mathlib

/-! # Verification development for `cli.go` (package `cli`)

The package registers commands and boolean options through a list of
`Element` closures (`WithCommand`, `WithBoolOption`), builds a `CLI` with
`New`, and dispatches with `CLI.Run`.

The embedding:

* Go maps (`commandMap`, `OptionMap`, the flag table of package `flag`) are
  finite maps (`Finmap`): extensional, with replace-on-insert, and with no
  iteration order, like a Go map.
* The program is stateful: `flag.Bool`, `flag.Parse`, `flag.Usage` and
  `os.Exit` act on process-wide state.  That state is the explicit `World`
  passed through every operation.  The type parameter `σ` of `World` is the
  part of the state that only command callbacks touch.
* A computation either returns (`Except.ok`) or stops the process
  (`Except.error`, a `Halt`: `os.Exit` or a panic).
* Package `flag` is the Go standard library, not part of the repository.  The
  section `flag` below embeds the part of it that `cli.go` calls, for boolean
  flags (the only kind the program registers).
-/

namespace cli

/-! ## Go values -/

/-- Go `error` values that can reach the caller of `Run`.  The two package
variables are distinct values; `user` stands for every error value made
outside the package.  A nil `error` is `none : Option Err`. -/
inductive Err
  | unknownCommand
  | notEnoughArgs
  | user (msg : String)
deriving DecidableEq, Repr

/-- Package variable `ErrUnknownCommand = errors.New("unknown command")`. -/
def ErrUnknownCommand : Err := Err.unknownCommand

/-- Package variable `ErrNotEnoughArgs = errors.New("not enough arguments")`. -/
def ErrNotEnoughArgs : Err := Err.notEnoughArgs

/-- Run-time panics the program can raise. -/
inductive Panic
  /-- Raised by `flag.FlagSet.Var`: `flag "name" begins with -`. -/
  | flagBeginsWithDash (name : String)
  /-- Raised by `flag.FlagSet.Var`: `flag "name" contains =`. -/
  | flagContainsEq (name : String)
  /-- Raised by `flag.FlagSet.Var`: `flag redefined: name`. -/
  | flagRedefined (name : String)
  /-- Failed type assertion `x.(*bool)` on an interface holding no `*bool`. -/
  | interfaceConversion
  /-- Dereference of a `*bool` that addresses no cell. -/
  | nilDereference
deriving DecidableEq, Repr

/-- Dynamic content of the `interface{}` field `option.value`.  A `*bool`
returned by `flag.Bool` addresses the cell of one registered flag; `flag`
refuses to register a name twice, so the flag name identifies the cell and is
used as the address. -/
inductive Iface
  | nil
  | bool (b : Bool)
  | boolPtr (cell : String)
deriving DecidableEq, Repr

/-- Go `type option struct { usage string; value interface{} }`. -/
structure option where
  usage : String
  value : Iface
deriving DecidableEq, Repr

/-- Go `type OptionMap map[string]option`. -/
abbrev OptionMap := Finmap (fun _ : String => option)

/-! ## Package `flag` (standard library) -/

namespace flag

/-- The fields of `flag.Flag` for a boolean flag: usage text, the default
rendered as text, and the `bool` cell that `flag.Bool` allocated for it. -/
structure Flag where
  Usage : String
  DefValue : String
  cell : Bool
deriving DecidableEq, Repr

/-- Go `formal map[string]*Flag` of `flag.CommandLine`. -/
abbrev FlagTable := Finmap (fun _ : String => Flag)

/-- The state of `flag.CommandLine`: registered flags and, after `Parse`,
the arguments that remain (`flag.Args()`). -/
structure FlagSet where
  formal : FlagTable
  args : List String

/-- The value of the variable `flag.Usage`: the library default, or the
closure `New` installs.  The closure reads the name and the usage text of
every entry of `cli.cmds`; `lines` holds those pairs, unordered like the map
they come from. -/
inductive UsageFn
  | default
  | installed (lines : Multiset (String × String))

/-- Failures of `FlagSet.parseOne`. -/
inductive ParseErr
  /-- Message `bad flag syntax: s`. -/
  | badSyntax (s : String)
  /-- Message `flag provided but not defined: -name`. -/
  | notDefined (name : String)
  /-- Message `invalid boolean value "value" for -name: parse error`. -/
  | invalidBool (value name : String)
  /-- Value `flag.ErrHelp`: `-h` or `-help` given and not defined. -/
  | help
deriving DecidableEq, Repr

/-- One write to the standard error stream. -/
inductive Out
  /-- Text written as it stands. -/
  | str (s : String)
  /-- Lines written by ranging over a map: their order is not determined. -/
  | unordered (lines : Multiset String)
  /-- The line `FlagSet.failf` prints for a parse error. -/
  | parseErr (e : ParseErr)
  /-- The text `flag.PrintDefaults()` prints for the given flag table. -/
  | printDefaults (formal : FlagTable)
  /-- The line `FlagSet.Var` prints, through `FlagSet.sprintf`, before it
  panics with `p`: the message of the panic followed by a newline. -/
  | varPanic (p : Panic)

end flag

/-! ## Process state -/

/-- Process-wide state the program acts on.  `prog` is `os.Args[0]`, `argv`
is `os.Args[1:]`, `flags` is `flag.CommandLine`, `usage` is the variable
`flag.Usage`, `stderr` is what has been written to `os.Stderr`, and `user` is
the state owned by command callbacks. -/
structure World (σ : Type) where
  prog : String
  argv : List String
  flags : flag.FlagSet
  usage : flag.UsageFn
  stderr : List flag.Out
  user : σ

/-- The ways a computation stops the process instead of returning, with the
state at that moment.  For a panic it is the state in which the panic is
raised: what the Go runtime prints when nothing recovers the panic is not part
of it. -/
inductive Halt (σ : Type)
  | exit (code : Nat) (w : World σ)
  | panic (p : Panic) (w : World σ)

/-- A computation that returns an `α` or stops the process. -/
abbrev Result (σ : Type) (α : Type) := Except (Halt σ) α

/-- Go `filepath.Base` on a Unix path: the last element of the path, without
trailing slashes; `.` for the empty path and `/` for a path of slashes only.
`/` is one byte in UTF-8, so working on characters gives what the byte loops
of the source give. -/
def filepath.Base (path : String) : String :=
  if path = "" then "."
  else
    let stripped := path.data.reverse.dropWhile (fun c => c == '/')
    let last := (stripped.takeWhile (fun c => c != '/')).reverse
    if last = [] then "/" else String.mk last

namespace flag

/-- Go `strconv.ParseBool`, which `boolValue.Set` uses. -/
def ParseBool (s : String) : Option Bool :=
  if s = "1" ∨ s = "t" ∨ s = "T" ∨ s = "TRUE" ∨ s = "true" ∨ s = "True" then some true
  else if s = "0" ∨ s = "f" ∨ s = "F" ∨ s = "FALSE" ∨ s = "false" ∨ s = "False" then some false
  else none

/-- Go `flag.Args()`: the arguments left after the flags. -/
def Args {σ : Type} (w : World σ) : List String := w.flags.args

/-- Go `flag.PrintDefaults()`: writes the defaults of the registered flags to
the standard error stream. -/
def PrintDefaults {σ : Type} (w : World σ) : World σ :=
  { w with stderr := w.stderr ++ [Out.printDefaults w.flags.formal] }

/-- The call `flag.Usage()`.  The library default prints `Usage of prog:` and
the flag defaults.  The closure installed by `New` (cli.go, lines 76-85)
prints the usage line with the base name of the program, the heading
`Command is one of:`, one line `name - usage` per command in map order, the
heading `Options:`, the flag defaults, and an empty line. -/
def Usage {σ : Type} (w : World σ) : World σ :=
  match w.usage with
  | UsageFn.default =>
    PrintDefaults { w with stderr := w.stderr ++ [Out.str ("Usage of " ++ w.prog ++ ":\n")] }
  | UsageFn.installed lines =>
    let w1 := { w with stderr := w.stderr ++
      [Out.str ("Usage: " ++ filepath.Base w.prog ++ " [option...] command [arg...]\n"),
       Out.str "\nCommand is one of:\n\n",
       Out.unordered (lines.map (fun l => l.1 ++ " - " ++ l.2 ++ "\n")),
       Out.str "\nOptions:\n\n"] }
    let w2 := PrintDefaults w1
    { w2 with stderr := w2.stderr ++ [Out.str "\n"] }

/-- The loop of `parseOne` that cuts `name=value` at the first `=` found from
index 1 on: the name, whether a value was given, and the value. -/
def splitValue (name : List Char) : List Char × Bool × List Char :=
  match name with
  | [] => ([], false, [])
  | c :: rest =>
    match rest.span (fun x => x != '=') with
    | (_, []) => (c :: rest, false, [])
    | (pre, _ :: value) => (c :: pre, true, value)

/-- What `FlagSet.parseOne` does with the first remaining argument. -/
inductive Parsed
  /-- Not a flag: `parseOne` returns `false, nil` and leaves the arguments. -/
  | nonFlag
  /-- The argument `--`: it is dropped and `parseOne` returns `false, nil`. -/
  | terminator
  /-- Bad flag syntax: fails before the argument is consumed. -/
  | badSyntax
  /-- The argument is consumed and `parseOne` fails with `e`. -/
  | fail (e : ParseErr)
  /-- The argument is consumed, the flag is set, `parseOne` returns `true`. -/
  | set (formal : FlagTable)

/-- Go `FlagSet.parseOne` on the first remaining argument `s`.  `-` and `=`
are one byte in UTF-8 and a string that starts with `-` has at least two
bytes exactly when it has at least two characters, so the tests of the source
on bytes are made on characters.  Every registered flag is boolean, so the
branch for flags that need an argument does not occur. -/
def parseOne (formal : FlagTable) (s : String) : Parsed :=
  let cs := s.data
  if cs.length < 2 ∨ cs.head? ≠ some '-' then Parsed.nonFlag
  else
    let numMinuses := if cs.get? 1 = some '-' then 2 else 1
    if numMinuses = 2 ∧ cs.length = 2 then Parsed.terminator
    else
      let name := cs.drop numMinuses
      if name.length = 0 ∨ name.head? = some '-' ∨ name.head? = some '=' then Parsed.badSyntax
      else
        match splitValue name with
        | (name, hasValue, value) =>
          match formal.lookup (String.mk name) with
          | none =>
            if String.mk name = "help" ∨ String.mk name = "h" then Parsed.fail ParseErr.help
            else Parsed.fail (ParseErr.notDefined (String.mk name))
          | some fl =>
            match (if hasValue then ParseBool (String.mk value) else some true) with
            | none => Parsed.fail (ParseErr.invalidBool (String.mk value) (String.mk name))
            | some b => Parsed.set (formal.insert (String.mk name) { fl with cell := b })

/-- The loop of Go `FlagSet.Parse`: `parseOne` is applied to the remaining
arguments until it reports no flag or fails.  The result is the flag set with
the arguments that remain, or the error with the flag set at the failure. -/
def parseLoop (formal : FlagTable) : List String → Except (ParseErr × FlagSet) FlagSet
  | [] => Except.ok ⟨formal, []⟩
  | s :: rest =>
    match parseOne formal s with
    | Parsed.nonFlag => Except.ok ⟨formal, s :: rest⟩
    | Parsed.terminator => Except.ok ⟨formal, rest⟩
    | Parsed.badSyntax => Except.error (ParseErr.badSyntax s, ⟨formal, s :: rest⟩)
    | Parsed.fail e => Except.error (e, ⟨formal, rest⟩)
    | Parsed.set formal1 => parseLoop formal1 rest

/-- Go `flag.Parse()`, i.e. `CommandLine.Parse(os.Args[1:])` with the error
handling `ExitOnError`: a parse error is reported on the standard error
stream (for `ErrHelp` nothing is reported), `flag.Usage()` is called, and the
process exits with status 0 for `ErrHelp` and 2 otherwise (the statuses of the
current releases of Go). -/
def Parse {σ : Type} (w : World σ) : Result σ (World σ) :=
  match parseLoop w.flags.formal w.argv with
  | Except.ok fs => Except.ok { w with flags := fs }
  | Except.error (ParseErr.help, fs) =>
    Except.error (Halt.exit 0 (Usage { w with flags := fs }))
  | Except.error (e, fs) =>
    Except.error (Halt.exit 2
      (Usage { w with flags := fs, stderr := w.stderr ++ [Out.parseErr e] }))

/-- The state in which `FlagSet.Var` panics with `p`: the message has been
written to the standard error stream. -/
def varPanic {σ : Type} (p : Panic) (w : World σ) : Halt σ :=
  Halt.panic p { w with stderr := w.stderr ++ [Out.varPanic p] }

/-- Go `flag.Bool(name, value, usage)`, i.e. `CommandLine.BoolVar` on a fresh
cell followed by `FlagSet.Var`: panics when the name begins with `-`, contains
`=`, or is already registered, after it has written the message of the panic
to the standard error stream; otherwise registers the flag and returns the
address of its cell.  The panic on a registered name is in every release of
Go; the two checks of the name are those of the current releases. -/
def Bool {σ : Type} (name : String) (value : Bool) (usage : String) (w : World σ) :
    Result σ (String × World σ) :=
  if name.data.head? = some '-' then Except.error (varPanic (Panic.flagBeginsWithDash name) w)
  else if '=' ∈ name.data then Except.error (varPanic (Panic.flagContainsEq name) w)
  else if name ∈ w.flags.formal then Except.error (varPanic (Panic.flagRedefined name) w)
  else
    let fl : Flag := ⟨usage, toString value, value⟩
    Except.ok (name, { w with flags := { w.flags with formal := w.flags.formal.insert name fl } })

end flag

/-! ## Package `cli` (cli.go) -/

/-- Go `type CommandCallback func(opts OptionMap, args []string) error`.  A
callback runs in the process state and either returns an `error` (`none` for
nil) with the state it leaves, or stops the process. -/
abbrev CommandCallback (σ : Type) :=
  OptionMap → List String → World σ → Result σ (Option Err × World σ)

/-- Go `type command struct { usage string; argsNum int; cb CommandCallback }`. -/
structure command (σ : Type) where
  usage : String
  argsNum : Int
  cb : CommandCallback σ

/-- Go `type commandMap map[string]command`. -/
abbrev commandMap (σ : Type) := Finmap (fun _ : String => command σ)

/-- Go `type CLI struct { cmds commandMap; opts OptionMap }`.  The two maps are
maps that were made, as `New` makes them; the zero `CLI`, whose maps are nil
and which no function of the package returns, is not a value of this type. -/
structure CLI (σ : Type) where
  cmds : commandMap σ
  opts : OptionMap

/-- Go `type Element func(cli *CLI)`: a step that updates the `CLI` under
construction and, through package `flag`, the process state. -/
abbrev Element (σ : Type) := CLI σ × World σ → Result σ (CLI σ × World σ)

/-- Go `WithCommand`: the returned closure stores the command under `name`. -/
def WithCommand {σ : Type} (name : String) (usage : String) (argsNum : Int)
    (cb : CommandCallback σ) : Element σ :=
  fun s => Except.ok ({ s.1 with cmds := s.1.cmds.insert name ⟨usage, argsNum, cb⟩ }, s.2)

/-- Go `WithBoolOption`: the returned closure makes the option from `usage`
and `value`, replaces its value by the pointer `flag.Bool` returns, and
stores it under `name`. -/
def WithBoolOption {σ : Type} (name : String) (usage : String) (value : Bool) : Element σ :=
  fun s =>
    let op : option := ⟨usage, Iface.bool value⟩
    match flag.Bool name value usage s.2 with
    | Except.error h => Except.error h
    | Except.ok (p, w) =>
      let op := { op with value := Iface.boolPtr p }
      Except.ok ({ s.1 with opts := s.1.opts.insert name op }, w)

/-- Go `GetBoolOption`, `*opts[name].value.(*bool)`: a missing key gives the
zero `option`, whose nil `value` fails the type assertion. -/
def GetBoolOption {σ : Type} (opts : OptionMap) (name : String) (w : World σ) : Result σ Bool :=
  let op : option := (opts.lookup name).getD ⟨"", Iface.nil⟩
  match op.value with
  | Iface.boolPtr cell =>
    match w.flags.formal.lookup cell with
    | some fl => Except.ok fl.cell
    | none => Except.error (Halt.panic Panic.nilDereference w)
  | _ => Except.error (Halt.panic Panic.interfaceConversion w)

/-- The loop `for _, e := range elems { e(&cli) }` of `New`. -/
def applyElems {σ : Type} : List (Element σ) → CLI σ × World σ → Result σ (CLI σ × World σ)
  | [], s => Except.ok s
  | e :: es, s =>
    match e s with
    | Except.error h => Except.error h
    | Except.ok s1 => applyElems es s1

/-- Go `New`: starts from empty maps, applies the elements in order, and
installs the usage closure over the commands of the built `CLI`. -/
def New {σ : Type} (elems : List (Element σ)) (w : World σ) : Result σ (CLI σ × World σ) :=
  match applyElems elems (⟨∅, ∅⟩, w) with
  | Except.error h => Except.error h
  | Except.ok (cli, w1) =>
    Except.ok (cli, { w1 with
      usage := flag.UsageFn.installed (cli.cmds.entries.map (fun e => (e.1, e.2.usage))) })

/-- Go `(*CLI).Run`. -/
def CLI.Run {σ : Type} (cli : CLI σ) (w : World σ) : Result σ (Option Err × World σ) :=
  match flag.Parse w with
  | Except.error h => Except.error h
  | Except.ok w1 =>
    match flag.Args w1 with
    | [] => Except.error (Halt.exit 1 (flag.Usage w1))
    | name :: args =>
      match cli.cmds.lookup name with
      | none => Except.ok (some ErrUnknownCommand, w1)
      | some cmd =>
        if cmd.argsNum ≠ 0 ∧ cmd.argsNum > (args.length : Int) then
          Except.ok (some ErrNotEnoughArgs, w1)
        else cmd.cb cli.opts args w1

/-! ## Declaration steps as data -/

/-- A declaration step of the public construction API, as data: the arguments
of one call of `WithCommand` or `WithBoolOption`. -/
inductive Decl (σ : Type)
  | command (name usage : String) (argsNum : Int) (cb : CommandCallback σ)
  | boolOption (name usage : String) (value : Bool)

/-- The `Element` a declaration step denotes. -/
def Decl.toElement {σ : Type} : Decl σ → Element σ
  | Decl.command name usage argsNum cb => WithCommand name usage argsNum cb
  | Decl.boolOption name usage value => WithBoolOption name usage value

/-- `New` applied to the elements of a list of declaration steps. -/
def build {σ : Type} (steps : List (Decl σ)) (w : World σ) : Result σ (CLI σ × World σ) :=
  New (steps.map Decl.toElement) w

/-- A process that has registered no flag and written nothing: program name
`prog`, arguments `argv`, callback state `u`. -/
def World.fresh {σ : Type} (prog : String) (argv : List String) (u : σ) : World σ :=
  ⟨prog, argv, ⟨∅, []⟩, flag.UsageFn.default, [], u⟩

/-- The name a step registers a command under, if it is a command step. -/
def Decl.commandName {σ : Type} : Decl σ → Option String
  | Decl.command name _ _ _ => some name
  | Decl.boolOption _ _ _ => none

/-- The name a step registers an option under, if it is an option step. -/
def Decl.optionName {σ : Type} : Decl σ → Option String
  | Decl.command _ _ _ _ => none
  | Decl.boolOption name _ _ => some name

/-- The names of the command steps of a list, in order. -/
def commandNames {σ : Type} (steps : List (Decl σ)) : List String :=
  steps.filterMap Decl.commandName

/-- The names of the option steps of a list, in order. -/
def optionNames {σ : Type} (steps : List (Decl σ)) : List String :=
  steps.filterMap Decl.optionName

/-- The names `flag.Bool` registers without a panic in an empty flag table:
no leading `-` and no `=`. -/
def validFlagName (name : String) : Prop :=
  name.data.head? ≠ some '-' ∧ '=' ∉ name.data

/-- The condition under which a step returns in state `s`: a command step
always does; an option step does when `flag.Bool` accepts the name. -/
def Decl.accepted {σ : Type} (s : CLI σ × World σ) : Decl σ → Prop
  | Decl.command _ _ _ _ => True
  | Decl.boolOption name _ _ => validFlagName name ∧ name ∉ s.2.flags.formal

/-- The state a step leaves when it returns. -/
def Decl.run {σ : Type} (s : CLI σ × World σ) : Decl σ → CLI σ × World σ
  | Decl.command name usage argsNum cb =>
    ({ s.1 with cmds := s.1.cmds.insert name ⟨usage, argsNum, cb⟩ }, s.2)
  | Decl.boolOption name usage value =>
    ({ s.1 with opts := s.1.opts.insert name ⟨usage, Iface.boolPtr name⟩ },
     { s.2 with flags :=
        { s.2.flags with formal := s.2.flags.formal.insert name ⟨usage, toString value, value⟩ } })

/-- Every step of the list is accepted in the state its predecessors leave. -/
def acceptedAll {σ : Type} : List (Decl σ) → CLI σ × World σ → Prop
  | [], _ => True
  | d :: ds, s => d.accepted s ∧ acceptedAll ds (d.run s)

/-- The option steps of a list can all be registered from state `w`: their
names are accepted by `flag.Bool`, pairwise distinct, and not yet registered. -/
def optionsFresh {σ : Type} (steps : List (Decl σ)) (w : World σ) : Prop :=
  (optionNames steps).Nodup ∧
    ∀ n ∈ optionNames steps, validFlagName n ∧ n ∉ w.flags.formal

/-- Every option entry holds the address of the flag registered under the
name of the entry. -/
def optsBound {σ : Type} (s : CLI σ × World σ) : Prop :=
  ∀ n, n ∈ s.1.opts →
    (∃ u, s.1.opts.lookup n = some ⟨u, Iface.boolPtr n⟩) ∧ n ∈ s.2.flags.formal

/-- Whether `flag.Bool` accepts a name can be computed. -/
instance validFlagName.decidable (name : String) : Decidable (validFlagName name) := by
  unfold validFlagName
  infer_instance

/-- Whether the option steps can all be registered can be computed. -/
instance optionsFresh.decidable {σ : Type} (steps : List (Decl σ)) (w : World σ) :
    Decidable (optionsFresh steps w) := by
  unfold optionsFresh
  infer_instance

/-! ## The text on the standard error stream -/

/-- The text one write puts on the standard error stream.  What the model
leaves open is given by parameters: `ord` is the order in which the lines of a
map are written, `pd` the text of `flag.PrintDefaults()` for a flag table,
`pe` the line `failf` prints for a parse error, and `pv` the line
`FlagSet.Var` prints before a panic. -/
def flag.Out.text (ord : Multiset String → List String) (pd : flag.FlagTable → String)
    (pe : flag.ParseErr → String) (pv : Panic → String) : flag.Out → String
  | flag.Out.str s => s
  | flag.Out.unordered lines => String.join (ord lines)
  | flag.Out.parseErr e => pe e
  | flag.Out.printDefaults formal => pd formal
  | flag.Out.varPanic p => pv p

/-- The text a sequence of writes puts on the standard error stream. -/
def flag.render (ord : Multiset String → List String) (pd : flag.FlagTable → String)
    (pe : flag.ParseErr → String) (pv : Panic → String) : List flag.Out → String
  | [] => ""
  | o :: os => o.text ord pd pe pv ++ flag.render ord pd pe pv os

/-- The usage text in the shape the specification documents, for a usage line
`usageLine`, command lines `cmdLines` and option defaults `defaults`: the usage
line, a blank line, the line `Command is one of:`, the command lines, a blank
line, the line `Options:`, the option defaults, a blank line. -/
def documentedUsage (usageLine cmdLines defaults : String) : String :=
  usageLine ++ "\nCommand is one of:\n" ++ cmdLines ++ "\nOptions:\n" ++ defaults ++ "\n"

/-- The usage text in the shape the closure of `New` prints it: as documented,
with one more blank line after the line `Command is one of:` and one more
after the line `Options:`. -/
def printedUsage (usageLine cmdLines defaults : String) : String :=
  usageLine ++ "\nCommand is one of:\n\n" ++ cmdLines ++ "\nOptions:\n\n" ++ defaults ++ "\n"

/-- The line the usage closure of `New` prints for one command. -/
def commandLine {σ : Type} (e : Sigma (fun _ : String => command σ)) : String :=
  e.1 ++ " - " ++ e.2.usage ++ "\n"

/-! ## Sample programs -/

/-- A callback that succeeds and appends its arguments to the callback
state, so that the state lists the invocations made. -/
def recordArgs : CommandCallback (List (List String)) :=
  fun _ args w => Except.ok (none, { w with user := w.user ++ [args] })

/-- A callback that records its arguments and returns the error `msg`. -/
def failWith (msg : String) : CommandCallback (List (List String)) :=
  fun _ args w => Except.ok (some (Err.user msg), { w with user := w.user ++ [args] })

/-- The commands `A` (two arguments required) and `B` (none required). -/
def abSteps : List (Decl (List (List String))) :=
  [Decl.command "A" "first" 2 recordArgs, Decl.command "B" "second" 0 recordArgs]

/-- The `CLI` that `New` builds from `abSteps`. -/
def abCLI : CLI (List (List String)) :=
  ⟨((∅ : commandMap (List (List String))).insert "A" ⟨"first", 2, recordArgs⟩).insert "B"
    ⟨"second", 0, recordArgs⟩, ∅⟩

/-- The command `greet` (one argument required, callback succeeds) and the
boolean option `loud` with default `false`. -/
def greetSteps : List (Decl (List (List String))) :=
  [Decl.command "greet" "say hello" 1 recordArgs, Decl.boolOption "loud" "shout" false]

/-- The `CLI` that `New` builds from `greetSteps`. -/
def greetCLI : CLI (List (List String)) :=
  ⟨(∅ : commandMap (List (List String))).insert "greet" ⟨"say hello", 1, recordArgs⟩,
    (∅ : OptionMap).insert "loud" ⟨"shout", Iface.boolPtr "loud"⟩⟩

/-- A process state of the `greetSteps` program with program name `prog` and
nothing written: arguments `argv`, the cell of `loud` holding `loud`, and
remaining arguments `rest`. -/
def greetWorld (argv : List String) (loud : Bool) (rest : List String) :
    World (List (List String)) :=
  ⟨"prog", argv, ⟨(∅ : flag.FlagTable).insert "loud" ⟨"shout", "false", loud⟩, rest⟩,
    flag.UsageFn.installed (greetCLI.cmds.entries.map (fun e => (e.1, e.2.usage))), [], []⟩

/-- Two declarations of the command `A`: the first requires five arguments
and fails, the second requires one and succeeds. -/
def twiceSteps : List (Decl (List (List String))) :=
  [Decl.command "A" "old" 5 (failWith "old"), Decl.command "A" "new" 1 recordArgs]

/-- Two declarations of the boolean option `v`. -/
def dupOptionSteps : List (Decl (List (List String))) :=
  [Decl.boolOption "v" "first" false, Decl.boolOption "v" "second" true]

/-- A command whose name looks like a flag, and the option `loud`. -/
def dashSteps : List (Decl (List (List String))) :=
  [Decl.command "-v" "verbose" 0 recordArgs, Decl.boolOption "loud" "shout" false]

/-- The command `greet` and a boolean option with the empty name. -/
def emptyNameSteps : List (Decl (List (List String))) :=
  [Decl.command "greet" "say hello" 1 recordArgs, Decl.boolOption "" "shout" false]

/-- One declaration of the command `neg` with a negative `argsNum`. -/
def negSteps : List (Decl (List (List String))) :=
  [Decl.command "neg" "negative" (-3) recordArgs]

/-- A command and a boolean option that share the name `x`. -/
def sharedSteps : List (Decl (List (List String))) :=
  [Decl.command "x" "the command" 0 recordArgs, Decl.boolOption "x" "the option" true]

/-- The state `flag.Parse` leaves in a process that registered no flag, when
it stops at the first argument. -/
def World.parsed {σ : Type} (prog : String) (argv : List String) (u : σ) : World σ :=
  ⟨prog, argv, ⟨∅, argv⟩, flag.UsageFn.default, [], u⟩

/-! ## Dispatch -/

/-- A successful `flag.Parse` changes nothing but the flag set. -/
theorem Parse_frame {σ : Type} {w w1 : World σ} (h : flag.Parse w = Except.ok w1) :
    w1 = { w with flags := w1.flags } := by
  unfold flag.Parse at h
  split at h
  · cases h; rfl
  · cases h
  · cases h

/-- `Run` after a successful parse that leaves `name :: args`. -/
theorem Run_of_parse {σ : Type} (cli : CLI σ) {w w1 : World σ} {name : String}
    {args : List String} (hp : flag.Parse w = Except.ok w1) (ha : flag.Args w1 = name :: args) :
    cli.Run w =
      match cli.cmds.lookup name with
      | none => Except.ok (some ErrUnknownCommand, w1)
      | some cmd =>
        if cmd.argsNum ≠ 0 ∧ cmd.argsNum > (args.length : Int) then
          Except.ok (some ErrNotEnoughArgs, w1)
        else cmd.cb cli.opts args w1 := by
  unfold CLI.Run
  rw [hp]
  simp only [ha]

/-- Claim C1. When parsing succeeds and leaves a non-empty residual sequence
whose first token is no key of the command registry, `Run` returns
`ErrUnknownCommand` in the state the parse left: the process does not exit
and the callback state is the one before `Run`, whatever follows the name. -/
theorem Run_unknown_command {σ : Type} (cli : CLI σ) (w w1 : World σ) (name : String)
    (args : List String) (hp : flag.Parse w = Except.ok w1)
    (ha : flag.Args w1 = name :: args) (hn : name ∉ cli.cmds) :
    cli.Run w = Except.ok (some ErrUnknownCommand, w1) ∧ w1.user = w.user := by
  refine ⟨?_, ?_⟩
  · rw [Run_of_parse cli hp ha, Finmap.lookup_eq_none.mpr hn]
  · rw [Parse_frame hp]

/-- Witness of `Run_unknown_command`: `Z` with two arguments on the commands
`A` and `B`. -/
theorem Run_unknown_command_witness :
    abCLI.Run (World.fresh "prog" ["Z", "x", "y"] []) =
        Except.ok (some ErrUnknownCommand, World.parsed "prog" ["Z", "x", "y"] []) ∧
      (World.parsed "prog" ["Z", "x", "y"] ([] : List (List String))).user =
        (World.fresh "prog" ["Z", "x", "y"] []).user :=
  Run_unknown_command abCLI _ _ "Z" ["x", "y"] rfl rfl (by decide)

/-- Claim C2. When parsing succeeds and leaves `name :: args`, `name` is
registered with a non-zero `argsNum` and `args` is shorter than `argsNum`,
`Run` returns `ErrNotEnoughArgs` in the state the parse left; the callback
state is the one before `Run`, so the callback was not invoked. -/
theorem Run_not_enough_args {σ : Type} (cli : CLI σ) (w w1 : World σ) (name : String)
    (args : List String) (cmd : command σ) (hp : flag.Parse w = Except.ok w1)
    (ha : flag.Args w1 = name :: args) (hc : cli.cmds.lookup name = some cmd)
    (hm : cmd.argsNum ≠ 0) (hlen : (args.length : Int) < cmd.argsNum) :
    cli.Run w = Except.ok (some ErrNotEnoughArgs, w1) ∧ w1.user = w.user := by
  refine ⟨?_, ?_⟩
  · rw [Run_of_parse cli hp ha, hc]
    simp only [gt_iff_lt]
    rw [if_pos ⟨hm, hlen⟩]
  · rw [Parse_frame hp]

/-- Witness of `Run_not_enough_args`: command `A` needs two arguments and is
given one. -/
theorem Run_not_enough_args_witness :
    abCLI.Run (World.fresh "prog" ["A", "x"] []) =
        Except.ok (some ErrNotEnoughArgs, World.parsed "prog" ["A", "x"] []) ∧
      (World.parsed "prog" ["A", "x"] ([] : List (List String))).user =
        (World.fresh "prog" ["A", "x"] []).user :=
  Run_not_enough_args abCLI _ _ "A" ["x"] ⟨"first", 2, recordArgs⟩ rfl rfl rfl
    (by decide) (by decide)

/-- Claim C3. When parsing succeeds and leaves `name :: args`, `name` is
registered with callback `cb` and `argsNum` is zero or at most the length of
`args`, the outcome of `Run` is the outcome of the single call of `cb` on the
option registry of the `CLI` and on `args`, made in the state the parse left:
the returned error is the one `cb` returns, unchanged. -/
theorem Run_dispatch {σ : Type} (cli : CLI σ) (w w1 : World σ) (name : String)
    (args : List String) (cmd : command σ) (hp : flag.Parse w = Except.ok w1)
    (ha : flag.Args w1 = name :: args) (hc : cli.cmds.lookup name = some cmd)
    (hm : cmd.argsNum = 0 ∨ cmd.argsNum ≤ (args.length : Int)) :
    cli.Run w = cmd.cb cli.opts args w1 := by
  rw [Run_of_parse cli hp ha, hc]
  simp only [gt_iff_lt]
  rw [if_neg]
  rintro ⟨h0, hlt⟩
  rcases hm with hm | hm
  · exact h0 hm
  · omega

/-- Witness of `Run_dispatch`: command `A` with exactly its two arguments. -/
theorem Run_dispatch_witness :
    abCLI.Run (World.fresh "prog" ["A", "x", "y"] []) =
      recordArgs abCLI.opts ["x", "y"] (World.parsed "prog" ["A", "x", "y"] []) :=
  Run_dispatch abCLI _ _ "A" ["x", "y"] ⟨"first", 2, recordArgs⟩ rfl rfl rfl
    (Or.inr (by decide))

/-- `Run` after a successful parse that leaves no argument: `flag.Usage()` is
called and the process exits with status 1. -/
theorem Run_of_parse_nil {σ : Type} (cli : CLI σ) {w w1 : World σ}
    (hp : flag.Parse w = Except.ok w1) (ha : flag.Args w1 = []) :
    cli.Run w = Except.error (Halt.exit 1 (flag.Usage w1)) := by
  unfold CLI.Run
  rw [hp]
  simp only [ha]

/-! ## Build steps -/

/-- An accepted step returns the state `Decl.run` gives. -/
theorem toElement_accepted {σ : Type} (d : Decl σ) (s : CLI σ × World σ)
    (h : d.accepted s) : d.toElement s = Except.ok (d.run s) := by
  cases d with
  | command name usage argsNum cb => rfl
  | boolOption name usage value =>
    obtain ⟨⟨h1, h2⟩, h3⟩ := h
    simp only [Decl.toElement, WithBoolOption, flag.Bool, h1, h2, h3, if_false, Decl.run]

/-- A step that is not accepted panics in `FlagSet.Var`: the state is the one
the step was started in, with the message of the panic written. -/
theorem toElement_rejected {σ : Type} (d : Decl σ) (s : CLI σ × World σ)
    (h : ¬ d.accepted s) : ∃ p, d.toElement s = Except.error (flag.varPanic p s.2) := by
  cases d with
  | command name usage argsNum cb => exact absurd trivial h
  | boolOption name usage value =>
    simp only [Decl.toElement, WithBoolOption, flag.Bool]
    by_cases h1 : name.data.head? = some '-'
    · exact ⟨Panic.flagBeginsWithDash name, by simp only [h1, if_true]⟩
    · by_cases h2 : '=' ∈ name.data
      · exact ⟨Panic.flagContainsEq name, by simp only [h1, h2, if_true, if_false]⟩
      · by_cases h3 : name ∈ s.2.flags.formal
        · exact ⟨Panic.flagRedefined name, by simp only [h1, h2, h3, if_true, if_false]⟩
        · exact absurd ⟨⟨h1, h2⟩, h3⟩ h

/-- A step returns exactly when it is accepted, with the state of `Decl.run`. -/
theorem toElement_ok_iff {σ : Type} (d : Decl σ) (s s1 : CLI σ × World σ) :
    d.toElement s = Except.ok s1 ↔ d.accepted s ∧ s1 = d.run s := by
  constructor
  · intro h
    by_cases ha : d.accepted s
    · rw [toElement_accepted d s ha] at h
      exact ⟨ha, (Except.ok.inj h).symm⟩
    · obtain ⟨p, hp⟩ := toElement_rejected d s ha
      rw [hp] at h
      cases h
  · rintro ⟨ha, rfl⟩
    exact toElement_accepted d s ha

/-- The loop of `New` over declaration steps returns exactly when every step
is accepted in the state its predecessors leave, with the state the steps
leave one after the other. -/
theorem applyElems_ok_iff {σ : Type} (steps : List (Decl σ)) (s s1 : CLI σ × World σ) :
    applyElems (steps.map Decl.toElement) s = Except.ok s1 ↔
      acceptedAll steps s ∧ s1 = steps.foldl Decl.run s := by
  induction steps generalizing s with
  | nil =>
    simp only [List.map_nil, applyElems, List.foldl_nil, acceptedAll, true_and]
    exact ⟨fun h => (Except.ok.inj h).symm, fun h => by rw [h]⟩
  | cons d ds ih =>
    simp only [List.map_cons, applyElems, List.foldl_cons, acceptedAll]
    by_cases ha : d.accepted s
    · rw [toElement_accepted d s ha]
      simp only [ih, ha, true_and]
    · obtain ⟨p, hp⟩ := toElement_rejected d s ha
      rw [hp]
      constructor
      · intro h
        cases h
      · rintro ⟨⟨hx, -⟩, -⟩
        exact absurd hx ha

/-- When the loop of `New` does not return, it panics. -/
theorem applyElems_error {σ : Type} (steps : List (Decl σ)) (s : CLI σ × World σ)
    (h : ¬ acceptedAll steps s) :
    ∃ p w1, applyElems (steps.map Decl.toElement) s = Except.error (Halt.panic p w1) := by
  induction steps generalizing s with
  | nil => exact absurd trivial h
  | cons d ds ih =>
    simp only [List.map_cons, applyElems]
    by_cases ha : d.accepted s
    · rw [toElement_accepted d s ha]
      exact ih (d.run s) (fun hall => h ⟨ha, hall⟩)
    · obtain ⟨p, hp⟩ := toElement_rejected d s ha
      rw [hp]
      exact ⟨p, _, rfl⟩

/-- The steps are all accepted exactly when the option names are accepted by
`flag.Bool`, pairwise distinct and not registered at the start. -/
theorem acceptedAll_iff {σ : Type} (steps : List (Decl σ)) (s : CLI σ × World σ) :
    acceptedAll steps s ↔ optionsFresh steps s.2 := by
  induction steps generalizing s with
  | nil => simp [acceptedAll, optionsFresh, optionNames]
  | cons d ds ih =>
    cases d with
    | command name usage argsNum cb =>
      simp only [acceptedAll, Decl.accepted, true_and, ih]
      simp only [optionsFresh, optionNames, Decl.run, List.filterMap_cons, Decl.optionName]
    | boolOption name usage value =>
      simp only [acceptedAll, Decl.accepted, ih]
      simp only [optionsFresh, optionNames, Decl.run, List.filterMap_cons, Decl.optionName,
        List.nodup_cons, List.mem_cons, Finmap.mem_insert, not_or, forall_eq_or_imp]
      constructor
      · rintro ⟨⟨hv, hf⟩, hnd, hall⟩
        refine ⟨⟨?_, hnd⟩, ⟨hv, hf⟩, fun n hn => ⟨(hall n hn).1, (hall n hn).2.2⟩⟩
        intro hmem
        exact (hall name hmem).2.1 rfl
      · rintro ⟨⟨hnot, hnd⟩, ⟨hv, hf⟩, hall⟩
        refine ⟨⟨hv, hf⟩, hnd, fun n hn => ⟨(hall n hn).1, ?_, (hall n hn).2⟩⟩
        rintro rfl
        exact hnot hn

/-- The result of `build`, when it returns: the state the steps leave, with
the usage closure installed. -/
theorem build_ok_iff {σ : Type} (steps : List (Decl σ)) (w : World σ) (cli : CLI σ)
    (w1 : World σ) :
    build steps w = Except.ok (cli, w1) ↔
      optionsFresh steps w ∧ cli = (steps.foldl Decl.run (⟨∅, ∅⟩, w)).1 ∧
        w1 = { (steps.foldl Decl.run (⟨∅, ∅⟩, w)).2 with
          usage := flag.UsageFn.installed (cli.cmds.entries.map (fun e => (e.1, e.2.usage))) } := by
  unfold build New
  constructor
  · intro h
    split at h
    · cases h
    · rename_i c0 w0 heq
      rw [applyElems_ok_iff, acceptedAll_iff] at heq
      obtain ⟨hf, hs⟩ := heq
      cases h
      rw [← hs]
      exact ⟨hf, rfl, rfl⟩
  · rintro ⟨hf, hc, hw⟩
    have hok : applyElems (steps.map Decl.toElement) (⟨∅, ∅⟩, w) =
        Except.ok (steps.foldl Decl.run (⟨∅, ∅⟩, w)) :=
      (applyElems_ok_iff steps _ _).mpr ⟨(acceptedAll_iff steps _).mpr hf, rfl⟩
    rw [hok, hw, hc]

/-- When `build` does not return, it panics. -/
theorem build_error {σ : Type} (steps : List (Decl σ)) (w : World σ)
    (h : ¬ optionsFresh steps w) :
    ∃ p w1, build steps w = Except.error (Halt.panic p w1) := by
  obtain ⟨p, w1, hp⟩ := applyElems_error steps (⟨∅, ∅⟩, w)
    (fun hall => h ((acceptedAll_iff steps _).mp hall))
  exact ⟨p, w1, by unfold build New; rw [hp]⟩

/-! ## The registries the steps leave -/

/-- A step touches the command entry of its own name only. -/
theorem run_cmds_lookup {σ : Type} (d : Decl σ) (s : CLI σ × World σ) (name : String)
    (h : d.commandName ≠ some name) : (d.run s).1.cmds.lookup name = s.1.cmds.lookup name := by
  cases d with
  | command n usage argsNum cb =>
    have hne : name ≠ n := fun e => h (by rw [e]; rfl)
    simp only [Decl.run, Finmap.lookup_insert_of_ne _ hne]
  | boolOption n usage value => rfl

/-- A step touches the option entry of its own name only. -/
theorem run_opts_lookup {σ : Type} (d : Decl σ) (s : CLI σ × World σ) (name : String)
    (h : d.optionName ≠ some name) : (d.run s).1.opts.lookup name = s.1.opts.lookup name := by
  cases d with
  | command n usage argsNum cb => rfl
  | boolOption n usage value =>
    have hne : name ≠ n := fun e => h (by rw [e]; rfl)
    simp only [Decl.run, Finmap.lookup_insert_of_ne _ hne]

/-- A step touches the flag of its own name only. -/
theorem run_formal_lookup {σ : Type} (d : Decl σ) (s : CLI σ × World σ) (name : String)
    (h : d.optionName ≠ some name) :
    (d.run s).2.flags.formal.lookup name = s.2.flags.formal.lookup name := by
  cases d with
  | command n usage argsNum cb => rfl
  | boolOption n usage value =>
    have hne : name ≠ n := fun e => h (by rw [e]; rfl)
    simp only [Decl.run, Finmap.lookup_insert_of_ne _ hne]

/-- Steps that declare no command `name` leave the command entry of `name`. -/
theorem foldl_cmds_lookup {σ : Type} (steps : List (Decl σ)) (s : CLI σ × World σ)
    (name : String) (h : name ∉ commandNames steps) :
    (steps.foldl Decl.run s).1.cmds.lookup name = s.1.cmds.lookup name := by
  induction steps generalizing s with
  | nil => rfl
  | cons d ds ih =>
    have hd : d.commandName ≠ some name := fun e =>
      h (List.mem_filterMap.mpr ⟨d, List.mem_cons_self _ _, e⟩)
    have hds : name ∉ commandNames ds := fun hm => by
      obtain ⟨x, hx, hxe⟩ := List.mem_filterMap.mp hm
      exact h (List.mem_filterMap.mpr ⟨x, List.mem_cons_of_mem _ hx, hxe⟩)
    rw [List.foldl_cons, ih _ hds, run_cmds_lookup d s name hd]

/-- Steps that declare no option `name` leave the option entry of `name`. -/
theorem foldl_opts_lookup {σ : Type} (steps : List (Decl σ)) (s : CLI σ × World σ)
    (name : String) (h : name ∉ optionNames steps) :
    (steps.foldl Decl.run s).1.opts.lookup name = s.1.opts.lookup name := by
  induction steps generalizing s with
  | nil => rfl
  | cons d ds ih =>
    have hd : d.optionName ≠ some name := fun e =>
      h (List.mem_filterMap.mpr ⟨d, List.mem_cons_self _ _, e⟩)
    have hds : name ∉ optionNames ds := fun hm => by
      obtain ⟨x, hx, hxe⟩ := List.mem_filterMap.mp hm
      exact h (List.mem_filterMap.mpr ⟨x, List.mem_cons_of_mem _ hx, hxe⟩)
    rw [List.foldl_cons, ih _ hds, run_opts_lookup d s name hd]

/-- Steps that declare no option `name` leave the flag `name`. -/
theorem foldl_formal_lookup {σ : Type} (steps : List (Decl σ)) (s : CLI σ × World σ)
    (name : String) (h : name ∉ optionNames steps) :
    (steps.foldl Decl.run s).2.flags.formal.lookup name = s.2.flags.formal.lookup name := by
  induction steps generalizing s with
  | nil => rfl
  | cons d ds ih =>
    have hd : d.optionName ≠ some name := fun e =>
      h (List.mem_filterMap.mpr ⟨d, List.mem_cons_self _ _, e⟩)
    have hds : name ∉ optionNames ds := fun hm => by
      obtain ⟨x, hx, hxe⟩ := List.mem_filterMap.mp hm
      exact h (List.mem_filterMap.mpr ⟨x, List.mem_cons_of_mem _ hx, hxe⟩)
    rw [List.foldl_cons, ih _ hds, run_formal_lookup d s name hd]

/-- The steps change the flag table and nothing else of the process state. -/
theorem foldl_world_frame {σ : Type} (steps : List (Decl σ)) (s : CLI σ × World σ) :
    (steps.foldl Decl.run s).2 =
      { s.2 with flags :=
        { s.2.flags with formal := (steps.foldl Decl.run s).2.flags.formal } } := by
  induction steps generalizing s with
  | nil => rfl
  | cons d ds ih =>
    rw [List.foldl_cons, ih]
    cases d <;> rfl

/-- With pairwise distinct option names, an option step of the list decides
the option entry and the flag of its name: the entry holds the usage and the
address of the flag, and the cell of the flag holds the default. -/
theorem foldl_declared_option {σ : Type} (steps : List (Decl σ)) (s : CLI σ × World σ)
    (name usage : String) (value : Bool) (hnd : (optionNames steps).Nodup)
    (hmem : Decl.boolOption name usage value ∈ steps) :
    (steps.foldl Decl.run s).1.opts.lookup name = some ⟨usage, Iface.boolPtr name⟩ ∧
      (steps.foldl Decl.run s).2.flags.formal.lookup name =
        some ⟨usage, toString value, value⟩ := by
  obtain ⟨pre, post, rfl⟩ := List.append_of_mem hmem
  have hpost : name ∉ optionNames post := by
    unfold optionNames at hnd ⊢
    rw [List.filterMap_append, List.filterMap_cons] at hnd
    simp only [Decl.optionName] at hnd
    have h2 := (List.nodup_append.mp hnd).2.1
    exact (List.nodup_cons.mp h2).1
  rw [List.foldl_append, List.foldl_cons, foldl_opts_lookup post _ name hpost,
    foldl_formal_lookup post _ name hpost]
  simp only [Decl.run, Finmap.lookup_insert, and_self]

/-- The sample `CLI` values are the ones `New` builds. -/
theorem build_samples (argv : List String) :
    build abSteps (World.fresh "prog" argv []) =
        Except.ok (abCLI, { World.fresh "prog" argv [] with
          usage := flag.UsageFn.installed (abCLI.cmds.entries.map (fun e => (e.1, e.2.usage))) }) ∧
      build greetSteps (World.fresh "prog" argv []) =
        Except.ok (greetCLI, greetWorld argv false []) :=
  ⟨rfl, rfl⟩



/-- Claim C4. In a step list whose last declaration of the command `name` is
`WithCommand(name, usage, argsNum, cb)` (earlier declarations of `name` may
precede it), the build returns whenever the option steps can be registered,
the registry entry of `name` is exactly that last declaration, and a dispatch
to `name` checks the arity against its `argsNum` and calls its `cb`. -/
theorem build_command_last_wins {σ : Type} (pre post : List (Decl σ)) (name usage : String)
    (argsNum : Int) (cb : CommandCallback σ) (w : World σ)
    (hpost : name ∉ commandNames post)
    (hopt : optionsFresh (pre ++ Decl.command name usage argsNum cb :: post) w) :
    ∃ cli w1, build (pre ++ Decl.command name usage argsNum cb :: post) w = Except.ok (cli, w1) ∧
      cli.cmds.lookup name = some ⟨usage, argsNum, cb⟩ ∧
      ∀ (wr w2 : World σ) (args : List String), flag.Parse wr = Except.ok w2 →
        flag.Args w2 = name :: args →
        cli.Run wr =
          if argsNum ≠ 0 ∧ argsNum > (args.length : Int) then
            Except.ok (some ErrNotEnoughArgs, w2)
          else cb cli.opts args w2 := by
  have hl : ((pre ++ Decl.command name usage argsNum cb :: post).foldl Decl.run
      (⟨∅, ∅⟩, w)).1.cmds.lookup name = some ⟨usage, argsNum, cb⟩ := by
    rw [List.foldl_append, List.foldl_cons, foldl_cmds_lookup post _ name hpost]
    simp only [Decl.run, Finmap.lookup_insert]
  refine ⟨_, _, (build_ok_iff _ w _ _).mpr ⟨hopt, rfl, rfl⟩, hl, ?_⟩
  intro wr w2 args hp ha
  rw [Run_of_parse _ hp ha, hl]

/-- Witness of `build_command_last_wins`: the command `A` declared twice. -/
theorem build_command_last_wins_witness :
    ∃ cli w1, build twiceSteps (World.fresh "prog" [] []) = Except.ok (cli, w1) ∧
      cli.cmds.lookup "A" = some ⟨"new", 1, recordArgs⟩ ∧
      ∀ (wr w2 : World (List (List String))) (args : List String),
        flag.Parse wr = Except.ok w2 → flag.Args w2 = "A" :: args →
        cli.Run wr =
          if (1 : Int) ≠ 0 ∧ (1 : Int) > (args.length : Int) then
            Except.ok (some ErrNotEnoughArgs, w2)
          else recordArgs cli.opts args w2 :=
  build_command_last_wins [Decl.command "A" "old" 5 (failWith "old")] [] "A" "new" 1 recordArgs
    (World.fresh "prog" [] []) (by decide) (by decide)

/-- Claim C6. When the build returns and the step list declares the boolean
option `name` with default `d`, reading the option in the state the build
leaves, before any parse, returns `d`. -/
theorem GetBoolOption_default {σ : Type} (steps : List (Decl σ)) (w : World σ) (cli : CLI σ)
    (w1 : World σ) (name usage : String) (d : Bool)
    (hb : build steps w = Except.ok (cli, w1))
    (hmem : Decl.boolOption name usage d ∈ steps) :
    GetBoolOption cli.opts name w1 = Except.ok d := by
  obtain ⟨hf, hc, hw⟩ := (build_ok_iff steps w cli w1).mp hb
  obtain ⟨ho, hfl⟩ := foldl_declared_option steps (⟨∅, ∅⟩, w) name usage d hf.1 hmem
  unfold GetBoolOption
  rw [hc, ho, hw]
  simp only [Option.getD_some, hfl]

/-- Witness of `GetBoolOption_default`: the option `loud` of `greetSteps`. -/
theorem GetBoolOption_default_witness :
    GetBoolOption greetCLI.opts "loud" (greetWorld [] false []) = Except.ok false :=
  GetBoolOption_default greetSteps (World.fresh "prog" [] []) greetCLI (greetWorld [] false [])
    "loud" "shout" false rfl (by simp [greetSteps])

/-- Claim C7, refuted as stated. A build that declares the boolean option `v`
twice does not complete: the second declaration panics in `flag.Bool` with
`flag redefined: v`, in the state the first declaration left, with that
message written to the standard error stream. -/
theorem build_duplicate_option_panics :
    build dupOptionSteps (World.fresh "prog" [] []) =
      Except.error (Halt.panic (Panic.flagRedefined "v")
        ⟨"prog", [], ⟨(∅ : flag.FlagTable).insert "v" ⟨"first", "false", false⟩, []⟩,
          flag.UsageFn.default, [flag.Out.varPanic (Panic.flagRedefined "v")], []⟩) :=
  rfl

/-- Claim C7, amended. A build in which a boolean option is declared under a
name that an earlier step already declared never returns a `CLI`: it panics. -/
theorem build_duplicate_option {σ : Type} (pre mid post : List (Decl σ)) (name : String)
    (usage1 usage2 : String) (d1 d2 : Bool) (w : World σ) :
    ∃ p w1, build (pre ++ Decl.boolOption name usage1 d1 ::
        (mid ++ Decl.boolOption name usage2 d2 :: post)) w =
      Except.error (Halt.panic p w1) := by
  apply build_error
  rintro ⟨hnd, -⟩
  unfold optionNames at hnd
  rw [List.filterMap_append, List.filterMap_cons] at hnd
  simp only [Decl.optionName] at hnd
  have h2 := (List.nodup_cons.mp (List.nodup_append.mp hnd).2.1).1
  apply h2
  rw [List.filterMap_append, List.filterMap_cons]
  simp only [Decl.optionName]
  exact List.mem_append_right _ (List.mem_cons_self _ _)

/-! ## Reading options -/

/-- The option names the steps leave are the ones held before and the ones
declared by option steps. -/
theorem foldl_opts_mem {σ : Type} (steps : List (Decl σ)) (s : CLI σ × World σ)
    (name : String) :
    name ∈ (steps.foldl Decl.run s).1.opts ↔ name ∈ s.1.opts ∨ name ∈ optionNames steps := by
  induction steps generalizing s with
  | nil => simp [optionNames]
  | cons d ds ih =>
    rw [List.foldl_cons, ih]
    cases d with
    | command n usage argsNum cb =>
      simp only [Decl.run, optionNames, List.filterMap_cons, Decl.optionName]
    | boolOption n usage value =>
      simp only [Decl.run, optionNames, List.filterMap_cons, Decl.optionName,
        Finmap.mem_insert, List.mem_cons]
      tauto

/-- The registered flags the steps leave include the ones registered before. -/
theorem foldl_formal_mem {σ : Type} (steps : List (Decl σ)) (s : CLI σ × World σ)
    (name : String) (h : name ∈ s.2.flags.formal) :
    name ∈ (steps.foldl Decl.run s).2.flags.formal := by
  induction steps generalizing s with
  | nil => exact h
  | cons d ds ih =>
    rw [List.foldl_cons]
    apply ih
    cases d with
    | command n usage argsNum cb => exact h
    | boolOption n usage value =>
      simp only [Decl.run, Finmap.mem_insert]
      exact Or.inr h

/-- The steps keep every option entry bound to its flag. -/
theorem foldl_optsBound {σ : Type} (steps : List (Decl σ)) (s : CLI σ × World σ)
    (h : optsBound s) : optsBound (steps.foldl Decl.run s) := by
  induction steps generalizing s with
  | nil => exact h
  | cons d ds ih =>
    rw [List.foldl_cons]
    apply ih
    cases d with
    | command n usage argsNum cb => exact h
    | boolOption n usage value =>
      intro m hm
      simp only [Decl.run, Finmap.mem_insert] at hm ⊢
      by_cases hmn : m = n
      · subst hmn
        exact ⟨⟨usage, Finmap.lookup_insert _⟩, Or.inl rfl⟩
      · rcases hm with hm | hm
        · exact absurd hm hmn
        · rw [Finmap.lookup_insert_of_ne _ hmn]
          exact ⟨(h m hm).1, Or.inr (h m hm).2⟩

/-- Claim C8. For a built `CLI` and any later state `w2` that still holds the
flags of the build, `GetBoolOption` fails exactly when `name` is no key of the
option registry; the keys are the names declared by option steps; and for a
key it returns the value the cell of that option holds in `w2`. -/
theorem GetBoolOption_fails_iff {σ : Type} (steps : List (Decl σ)) (w : World σ) (cli : CLI σ)
    (w1 w2 : World σ) (name : String) (hb : build steps w = Except.ok (cli, w1))
    (hlive : ∀ n, n ∈ w1.flags.formal → n ∈ w2.flags.formal) :
    ((∃ h, GetBoolOption cli.opts name w2 = Except.error h) ↔ name ∉ cli.opts) ∧
      (name ∈ cli.opts ↔ name ∈ optionNames steps) ∧
      (name ∈ cli.opts → ∃ fl, w2.flags.formal.lookup name = some fl ∧
        GetBoolOption cli.opts name w2 = Except.ok fl.cell) := by
  obtain ⟨-, hc, hw⟩ := (build_ok_iff steps w cli w1).mp hb
  have hbound : optsBound (steps.foldl Decl.run (⟨∅, ∅⟩, w)) :=
    foldl_optsBound steps _ (fun n hn => absurd hn (Finmap.not_mem_empty))
  have hread : name ∈ cli.opts → ∃ fl, w2.flags.formal.lookup name = some fl ∧
      GetBoolOption cli.opts name w2 = Except.ok fl.cell := by
    intro hin
    rw [hc] at hin
    obtain ⟨⟨u, hu⟩, hfm⟩ := hbound name hin
    have hin1 : name ∈ w1.flags.formal := by rw [hw]; exact hfm
    obtain ⟨fl, hfl⟩ := Finmap.mem_iff.mp (hlive name hin1)
    refine ⟨fl, hfl, ?_⟩
    unfold GetBoolOption
    rw [hc, hu]
    simp only [Option.getD_some, hfl]
  refine ⟨⟨?_, ?_⟩, ?_, hread⟩
  · rintro ⟨h, hh⟩ hin
    obtain ⟨fl, -, hok⟩ := hread hin
    rw [hok] at hh
    cases hh
  · intro hnot
    refine ⟨Halt.panic Panic.interfaceConversion w2, ?_⟩
    unfold GetBoolOption
    rw [Finmap.lookup_eq_none.mpr hnot]
    rfl
  · rw [hc, foldl_opts_mem]
    simp only [Finmap.not_mem_empty, false_or]

/-- Witness of `GetBoolOption_fails_iff`: the option `loud` of `greetSteps`,
read after `--loud greet world` was parsed. -/
theorem GetBoolOption_fails_iff_witness :
    ((∃ h, GetBoolOption greetCLI.opts "loud"
        (greetWorld ["--loud", "greet", "world"] true ["greet", "world"]) = Except.error h) ↔
        "loud" ∉ greetCLI.opts) ∧
      ("loud" ∈ greetCLI.opts ↔ "loud" ∈ optionNames greetSteps) ∧
      ("loud" ∈ greetCLI.opts → ∃ fl,
        (greetWorld ["--loud", "greet", "world"] true ["greet", "world"]).flags.formal.lookup
          "loud" = some fl ∧
        GetBoolOption greetCLI.opts "loud"
          (greetWorld ["--loud", "greet", "world"] true ["greet", "world"]) = Except.ok fl.cell) :=
  GetBoolOption_fails_iff greetSteps (World.fresh "prog" ["--loud", "greet", "world"] [])
    greetCLI (greetWorld ["--loud", "greet", "world"] false [])
    (greetWorld ["--loud", "greet", "world"] true ["greet", "world"]) "loud" rfl
    (fun n hn => by
      simp only [greetWorld, Finmap.mem_insert] at hn ⊢
      exact hn)

/-! ## Order of the steps -/

/-- Two steps that do not declare the same kind of thing under one name can
be applied in either order. -/
theorem run_comm {σ : Type} (x y : Decl σ) (s : CLI σ × World σ)
    (hc : ∀ n, x.commandName = some n → y.commandName ≠ some n)
    (ho : ∀ n, x.optionName = some n → y.optionName ≠ some n) :
    y.run (x.run s) = x.run (y.run s) := by
  cases x with
  | command n usage argsNum cb =>
    cases y with
    | command m usage2 argsNum2 cb2 =>
      have hne : n ≠ m := fun e => hc n rfl (by rw [e]; rfl)
      simp only [Decl.run, Finmap.insert_insert_of_ne _ hne]
    | boolOption m usage2 value2 => rfl
  | boolOption n usage value =>
    cases y with
    | command m usage2 argsNum2 cb2 => rfl
    | boolOption m usage2 value2 =>
      have hne : n ≠ m := fun e => ho n rfl (by rw [e]; rfl)
      simp only [Decl.run, Finmap.insert_insert_of_ne _ hne]

/-- With pairwise distinct command names and pairwise distinct option names,
the state the steps leave does not depend on their order. -/
theorem foldl_run_perm {σ : Type} {l1 l2 : List (Decl σ)} (hp : l1.Perm l2)
    (s : CLI σ × World σ) (hc : (commandNames l1).Nodup) (ho : (optionNames l1).Nodup) :
    l1.foldl Decl.run s = l2.foldl Decl.run s := by
  induction hp generalizing s with
  | nil => rfl
  | cons x _ ih =>
    simp only [List.foldl_cons]
    apply ih
    · cases x with
      | command n usage argsNum cb =>
        simp only [commandNames, List.filterMap_cons, Decl.commandName, List.nodup_cons] at hc
        exact hc.2
      | boolOption n usage value => exact hc
    · cases x with
      | command n usage argsNum cb => exact ho
      | boolOption n usage value =>
        simp only [optionNames, List.filterMap_cons, Decl.optionName, List.nodup_cons] at ho
        exact ho.2
  | swap x y l =>
    simp only [List.foldl_cons]
    congr 1
    apply run_comm
    · intro n hy hx
      simp only [commandNames, List.filterMap_cons, hy, hx, List.nodup_cons, List.mem_cons,
        true_or, not_true_eq_false, false_and] at hc
    · intro n hy hx
      simp only [optionNames, List.filterMap_cons, hy, hx, List.nodup_cons, List.mem_cons,
        true_or, not_true_eq_false, false_and] at ho
  | trans h12 _ ih1 ih2 =>
    rw [ih1 s hc ho]
    exact ih2 s ((h12.filterMap _).nodup_iff.mp hc) ((h12.filterMap _).nodup_iff.mp ho)

/-- Whether the option steps can be registered does not depend on their
order. -/
theorem optionsFresh_perm {σ : Type} {l1 l2 : List (Decl σ)} (hp : l1.Perm l2) (w : World σ) :
    optionsFresh l1 w ↔ optionsFresh l2 w := by
  have hn : (optionNames l1).Perm (optionNames l2) := hp.filterMap _
  unfold optionsFresh
  rw [hn.nodup_iff]
  simp only [hn.mem_iff]

/-- Claim C9. For a step list with pairwise distinct command names and
pairwise distinct option names, `New` on any permutation of the list returns
exactly when `New` on the list does, with the same result: the same command
registry, the same option registry, the same flags, and hence the same
outcome of `Run` in every state. -/
theorem build_perm {σ : Type} (steps steps' : List (Decl σ)) (w : World σ)
    (hp : steps.Perm steps') (hc : (commandNames steps).Nodup)
    (ho : (optionNames steps).Nodup) :
    (∀ r, build steps' w = Except.ok r ↔ build steps w = Except.ok r) ∧
      ∀ (cli cli' : CLI σ) (w1 w1' : World σ), build steps w = Except.ok (cli, w1) →
        build steps' w = Except.ok (cli', w1') →
        cli'.cmds = cli.cmds ∧ cli'.opts = cli.opts ∧ w1' = w1 ∧
          ∀ wr, cli'.Run wr = cli.Run wr := by
  have h1 : ∀ r, build steps' w = Except.ok r ↔ build steps w = Except.ok r := by
    rintro ⟨cli, w1⟩
    rw [build_ok_iff, build_ok_iff, optionsFresh_perm hp, foldl_run_perm hp _ hc ho]
  refine ⟨h1, ?_⟩
  intro cli cli' w1 w1' hb hb'
  rw [(h1 (cli', w1')).mp hb'] at hb
  cases hb
  exact ⟨rfl, rfl, rfl, fun _ => rfl⟩

/-- Witness of `build_perm`: the two steps of `greetSteps` in either order. -/
theorem build_perm_witness :
    (∀ r, build [Decl.boolOption "loud" "shout" false,
          Decl.command "greet" "say hello" 1 recordArgs] (World.fresh "prog" [] []) =
        Except.ok r ↔ build greetSteps (World.fresh "prog" [] []) = Except.ok r) ∧
      ∀ (cli cli' : CLI (List (List String))) (w1 w1' : World (List (List String))),
        build greetSteps (World.fresh "prog" [] []) = Except.ok (cli, w1) →
        build [Decl.boolOption "loud" "shout" false,
          Decl.command "greet" "say hello" 1 recordArgs] (World.fresh "prog" [] []) =
            Except.ok (cli', w1') →
        cli'.cmds = cli.cmds ∧ cli'.opts = cli.opts ∧ w1' = w1 ∧
          ∀ wr, cli'.Run wr = cli.Run wr :=
  build_perm greetSteps _ (World.fresh "prog" [] [])
    (List.Perm.swap (Decl.boolOption "loud" "shout" false)
      (Decl.command "greet" "say hello" 1 recordArgs) []) (by decide) (by decide)

/-! ## Parsing -/

/-- An argument shorter than two characters or not starting with `-` is no
flag. -/
theorem parseOne_nonFlag (formal : flag.FlagTable) (c : String)
    (h : c.data.length < 2 ∨ c.data.head? ≠ some '-') :
    flag.parseOne formal c = flag.Parsed.nonFlag := by
  unfold flag.parseOne
  simp only [h, if_true]

/-- A name without `=` is not cut. -/
theorem splitValue_no_eq (name : List Char) (h : '=' ∉ name) :
    flag.splitValue name = (name, false, []) := by
  cases name with
  | nil => rfl
  | cons c rest =>
    have hall : ∀ x ∈ rest, (x != '=') = true := by
      intro x hx
      simp only [bne_iff_ne, ne_eq]
      rintro rfl
      exact h (List.mem_cons_of_mem _ hx)
    have hspan : rest.span (fun x => x != '=') = (rest, []) := by
      rw [List.span_eq_take_drop, List.takeWhile_eq_self_iff.mpr hall,
        List.dropWhile_eq_nil_iff.mpr hall]
    simp only [flag.splitValue, hspan]

/-- The argument `--o` for a registered, non-empty name `o` that `flag.Bool`
accepts sets the cell of `o` to `true`. -/
theorem parseOne_set (formal : flag.FlagTable) (o : String) (fl : flag.Flag)
    (hne : o ≠ "") (hv : validFlagName o) (hl : formal.lookup o = some fl) :
    flag.parseOne formal ("--" ++ o) =
      flag.Parsed.set (formal.insert o { fl with cell := true }) := by
  obtain ⟨cs⟩ := o
  have hdata : ("--" ++ String.mk cs).data = '-' :: '-' :: cs := by
    rw [String.data_append]
    rfl
  cases cs with
  | nil => exact absurd rfl hne
  | cons c rest =>
    obtain ⟨hv1, hv2⟩ := hv
    have hc1 : c ≠ '-' := by
      intro e
      apply hv1
      rw [e]
      rfl
    have hc2 : c ≠ '=' := by
      intro e
      apply hv2
      rw [e]
      exact List.mem_cons_self _ _
    have hsplit := splitValue_no_eq (c :: rest) hv2
    unfold flag.parseOne
    simp only [hdata]
    simp [hsplit, hc1, hc2, hl]
    have hlen : ¬ (rest.length + 1 + 1 + 1 < 2) := by omega
    rw [if_neg hlen]
    have hl2 : Finmap.lookup (String.mk (flag.splitValue (c :: rest)).1) formal = some fl := by
      rw [hsplit]
      exact hl
    rw [hl2]

/-- Parsing stops at a first argument that is no flag and leaves everything. -/
theorem Parse_nonFlag {σ : Type} (w : World σ) (c : String) (args : List String)
    (hargv : w.argv = c :: args) (h : c.data.length < 2 ∨ c.data.head? ≠ some '-') :
    flag.Parse w = Except.ok { w with flags := ⟨w.flags.formal, c :: args⟩ } := by
  unfold flag.Parse
  rw [hargv]
  simp only [flag.parseLoop, parseOne_nonFlag _ c h]

/-- Parsing `--o` followed by an argument that is no flag sets the cell of
`o` and leaves that argument and what follows it. -/
theorem Parse_option {σ : Type} (w : World σ) (o c : String) (args : List String)
    (fl : flag.Flag) (hargv : w.argv = ("--" ++ o) :: c :: args) (hne : o ≠ "")
    (hv : validFlagName o) (hl : w.flags.formal.lookup o = some fl)
    (h : c.data.length < 2 ∨ c.data.head? ≠ some '-') :
    flag.Parse w = Except.ok { w with
      flags := ⟨w.flags.formal.insert o { fl with cell := true }, c :: args⟩ } := by
  unfold flag.Parse
  rw [hargv]
  simp only [flag.parseLoop, parseOne_set _ o fl hne hv hl, parseOne_nonFlag _ c h]

/-- Claim C10, refuted as stated. First: the command `-v` is registered with
no required argument and the option `loud` defaults to `false`, yet a run on
the argument vector `-v` exits with status 2 in `flag.Parse` and the callback
is never invoked.  Second: with an option of empty name, a run on
`-- greet world` dispatches to `greet` and the option still reads `false`. -/
theorem Run_flag_like_command :
    (∃ cli w1 w2, build dashSteps (World.fresh "prog" ["-v"] []) = Except.ok (cli, w1) ∧
        cli.cmds.lookup "-v" = some ⟨"verbose", 0, recordArgs⟩ ∧
        cli.Run w1 = Except.error (Halt.exit 2 w2) ∧ w2.user = []) ∧
      (∃ cli w1 w2, build emptyNameSteps (World.fresh "prog" ["--", "greet", "world"] []) =
          Except.ok (cli, w1) ∧
        cli.Run w1 = recordArgs cli.opts ["world"] w2 ∧
        GetBoolOption cli.opts "" w2 = Except.ok false) :=
  ⟨⟨_, _, _, rfl, rfl, rfl, rfl⟩, ⟨_, _, _, rfl, rfl, rfl⟩⟩

/-- Claim C10, amended. Let the build return a `CLI` that declares the boolean
option `o` with default `false`, where `o` is not empty, and that holds the
command `c`, where `c` is no flag for the parser (shorter than two characters
or not starting with `-`) and its arity is satisfied by `args`.  Run on the
argument vector `c :: args`, the outcome is that of the callback of `c` on the
option registry and `args`, in a state where `o` reads `false`; run on
`--o :: c :: args`, it is that of the same call in a state where `o` reads
`true`.  The build does not read the argument vector, so it is set after it. -/
theorem Run_with_option {σ : Type} (steps : List (Decl σ)) (w : World σ) (cli : CLI σ)
    (w1 : World σ) (o usage c : String) (args : List String) (cmd : command σ)
    (hb : build steps w = Except.ok (cli, w1))
    (hmem : Decl.boolOption o usage false ∈ steps)
    (hc : cli.cmds.lookup c = some cmd)
    (hm : cmd.argsNum = 0 ∨ cmd.argsNum ≤ (args.length : Int))
    (ho : o ≠ "") (hcf : c.data.length < 2 ∨ c.data.head? ≠ some '-') :
    (∃ w2, cli.Run { w1 with argv := c :: args } = cmd.cb cli.opts args w2 ∧
        GetBoolOption cli.opts o w2 = Except.ok false) ∧
      (∃ w2, cli.Run { w1 with argv := ("--" ++ o) :: c :: args } = cmd.cb cli.opts args w2 ∧
        GetBoolOption cli.opts o w2 = Except.ok true) := by
  obtain ⟨hf, hcli, hw⟩ := (build_ok_iff steps w cli w1).mp hb
  obtain ⟨hopt, hfl⟩ := foldl_declared_option steps (⟨∅, ∅⟩, w) o usage false hf.1 hmem
  have hname : o ∈ optionNames steps := List.mem_filterMap.mpr ⟨_, hmem, rfl⟩
  have hv : validFlagName o := (hf.2 o hname).1
  have hopt1 : cli.opts.lookup o = some ⟨usage, Iface.boolPtr o⟩ := by rw [hcli]; exact hopt
  have hfl1 : w1.flags.formal.lookup o = some ⟨usage, toString false, false⟩ := by
    rw [hw]; exact hfl
  have hrun : ∀ (wr w2 : World σ), flag.Parse wr = Except.ok w2 → flag.Args w2 = c :: args →
      cli.Run wr = cmd.cb cli.opts args w2 := by
    intro wr w2 hp ha
    rw [Run_of_parse cli hp ha, hc]
    simp only [gt_iff_lt]
    rw [if_neg]
    rintro ⟨h0, hlt⟩
    rcases hm with hm | hm
    · exact h0 hm
    · omega
  refine ⟨⟨_, hrun _ _ (Parse_nonFlag { w1 with argv := c :: args } c args rfl hcf) rfl, ?_⟩,
    ⟨_, hrun _ _ (Parse_option { w1 with argv := ("--" ++ o) :: c :: args } o c args _ rfl ho hv
      hfl1 hcf) rfl, ?_⟩⟩
  · unfold GetBoolOption
    rw [hopt1]
    simp only [Option.getD_some, hfl1]
  · unfold GetBoolOption
    rw [hopt1]
    simp only [Option.getD_some, Finmap.lookup_insert]

/-- Witness of `Run_with_option`: the command `greet` with the argument
`world` and the option `loud`. -/
theorem Run_with_option_witness :
    (∃ w2, greetCLI.Run { greetWorld [] false [] with argv := "greet" :: ["world"] } =
        recordArgs greetCLI.opts ["world"] w2 ∧
        GetBoolOption greetCLI.opts "loud" w2 = Except.ok false) ∧
      (∃ w2, greetCLI.Run { greetWorld [] false [] with
          argv := ("--" ++ "loud") :: "greet" :: ["world"] } =
        recordArgs greetCLI.opts ["world"] w2 ∧
        GetBoolOption greetCLI.opts "loud" w2 = Except.ok true) :=
  Run_with_option greetSteps (World.fresh "prog" [] []) greetCLI (greetWorld [] false [])
    "loud" "shout" "greet" ["world"] ⟨"say hello", 1, recordArgs⟩ rfl
    (by simp [greetSteps]) rfl (Or.inr (by decide)) (by decide) (Or.inr (by decide))

/-- The scenario of the specification: `greet` requires one argument and its
callback succeeds, `loud` defaults to `false`; on `--loud greet world` the
callback is invoked once, with `world`, `Run` returns nil, and `loud` reads
`true`. -/
theorem greet_scenario :
    build greetSteps (World.fresh "prog" ["--loud", "greet", "world"] []) =
        Except.ok (greetCLI, greetWorld ["--loud", "greet", "world"] false []) ∧
      greetCLI.Run (greetWorld ["--loud", "greet", "world"] false []) =
        Except.ok (none, { greetWorld ["--loud", "greet", "world"] true ["greet", "world"] with
          user := [["world"]] }) ∧
      GetBoolOption greetCLI.opts "loud"
        (greetWorld ["--loud", "greet", "world"] true ["greet", "world"]) = Except.ok true :=
  ⟨rfl, rfl, rfl⟩

/-! ## Keys of the registries -/

/-- The command names the steps leave are the ones held before and the ones
declared by command steps. -/
theorem foldl_cmds_mem {σ : Type} (steps : List (Decl σ)) (s : CLI σ × World σ)
    (name : String) :
    name ∈ (steps.foldl Decl.run s).1.cmds ↔ name ∈ s.1.cmds ∨ name ∈ commandNames steps := by
  induction steps generalizing s with
  | nil => simp [commandNames]
  | cons d ds ih =>
    rw [List.foldl_cons, ih]
    cases d with
    | command n usage argsNum cb =>
      simp only [Decl.run, commandNames, List.filterMap_cons, Decl.commandName,
        Finmap.mem_insert, List.mem_cons]
      tauto
    | boolOption n usage value =>
      simp only [Decl.run, commandNames, List.filterMap_cons, Decl.commandName]

/-- The option registry the steps leave depends on the option registry they
start from only. -/
theorem foldl_opts_congr {σ : Type} (steps : List (Decl σ)) (s s' : CLI σ × World σ)
    (h : s.1.opts = s'.1.opts) :
    (steps.foldl Decl.run s).1.opts = (steps.foldl Decl.run s').1.opts := by
  induction steps generalizing s s' with
  | nil => exact h
  | cons d ds ih =>
    rw [List.foldl_cons, List.foldl_cons]
    apply ih
    cases d with
    | command n usage argsNum cb => exact h
    | boolOption n usage value => simp only [Decl.run, h]

/-- The command entry of `m` the steps leave depends on the entry of `m` they
start from only. -/
theorem foldl_cmds_lookup_congr {σ : Type} (steps : List (Decl σ)) (s s' : CLI σ × World σ)
    (m : String) (h : s.1.cmds.lookup m = s'.1.cmds.lookup m) :
    (steps.foldl Decl.run s).1.cmds.lookup m = (steps.foldl Decl.run s').1.cmds.lookup m := by
  induction steps generalizing s s' with
  | nil => exact h
  | cons d ds ih =>
    rw [List.foldl_cons, List.foldl_cons]
    apply ih
    cases d with
    | command n usage argsNum cb =>
      by_cases hmn : m = n
      · subst hmn
        simp only [Decl.run, Finmap.lookup_insert]
      · simp only [Decl.run, Finmap.lookup_insert_of_ne _ hmn]
        exact h
    | boolOption n usage value => exact h

/-- Claim C12. When `New` returns, the keys of the command registry are
exactly the names of the `WithCommand` steps and the keys of the option
registry are exactly the names of the `WithBoolOption` steps.  `New` with no
step returns a `CLI` with both registries empty, on which `Run` returns
`ErrUnknownCommand` whenever parsing leaves a non-empty residual sequence. -/
theorem build_keys {σ : Type} (steps : List (Decl σ)) (w : World σ) (cli : CLI σ)
    (w1 : World σ) (hb : build steps w = Except.ok (cli, w1)) :
    (∀ n, n ∈ cli.cmds ↔ n ∈ commandNames steps) ∧
      (∀ n, n ∈ cli.opts ↔ n ∈ optionNames steps) ∧
      build ([] : List (Decl σ)) w =
        Except.ok (⟨∅, ∅⟩, { w with usage := flag.UsageFn.installed 0 }) ∧
      ∀ (wr w2 : World σ) (name : String) (args : List String),
        flag.Parse wr = Except.ok w2 → flag.Args w2 = name :: args →
        (⟨∅, ∅⟩ : CLI σ).Run wr = Except.ok (some ErrUnknownCommand, w2) := by
  obtain ⟨-, hc, -⟩ := (build_ok_iff steps w cli w1).mp hb
  refine ⟨?_, ?_, rfl, ?_⟩
  · intro n
    rw [hc, foldl_cmds_mem]
    simp only [Finmap.not_mem_empty, false_or]
  · intro n
    rw [hc, foldl_opts_mem]
    simp only [Finmap.not_mem_empty, false_or]
  · intro wr w2 name args hp ha
    rw [Run_of_parse _ hp ha, Finmap.lookup_empty]

/-- Witness of `build_keys`: the registries built from `greetSteps`. -/
theorem build_keys_witness :
    (∀ n, n ∈ greetCLI.cmds ↔ n ∈ commandNames greetSteps) ∧
      (∀ n, n ∈ greetCLI.opts ↔ n ∈ optionNames greetSteps) ∧
      build ([] : List (Decl (List (List String)))) (World.fresh "prog" ["Z"] []) =
        Except.ok (⟨∅, ∅⟩, { World.fresh "prog" ["Z"] [] with
          usage := flag.UsageFn.installed 0 }) ∧
      ∀ (wr w2 : World (List (List String))) (name : String) (args : List String),
        flag.Parse wr = Except.ok w2 → flag.Args w2 = name :: args →
        (⟨∅, ∅⟩ : CLI (List (List String))).Run wr = Except.ok (some ErrUnknownCommand, w2) :=
  build_keys greetSteps (World.fresh "prog" ["Z"] []) greetCLI (greetWorld ["Z"] false []) rfl

/-- Claim C14. A command declared with a negative `argsNum` is registered like
any other (the build returns whenever the option steps can be registered, and
the entry holds the negative `argsNum`), and a dispatch to it never fails the
arity check: for every argument list, the empty one included, the outcome of
`Run` is that of the callback on the option registry and the arguments.  The
`CLI` built with `argsNum = 0` in place of the negative value has the same
outcome of `Run` in every state. -/
theorem Run_negative_args {σ : Type} (pre post : List (Decl σ)) (name usage : String)
    (argsNum : Int) (cb : CommandCallback σ) (w : World σ)
    (hneg : argsNum < 0) (hpost : name ∉ commandNames post)
    (hopt : optionsFresh (pre ++ Decl.command name usage argsNum cb :: post) w) :
    ∃ cli w1, build (pre ++ Decl.command name usage argsNum cb :: post) w = Except.ok (cli, w1) ∧
      cli.cmds.lookup name = some ⟨usage, argsNum, cb⟩ ∧
      (∀ (wr w2 : World σ) (args : List String), flag.Parse wr = Except.ok w2 →
        flag.Args w2 = name :: args → cli.Run wr = cb cli.opts args w2) ∧
      ∃ cli0 w0, build (pre ++ Decl.command name usage 0 cb :: post) w = Except.ok (cli0, w0) ∧
        ∀ wr, cli0.Run wr = cli.Run wr := by
  have hl : ∀ a : Int, ((pre ++ Decl.command name usage a cb :: post).foldl Decl.run
      (⟨∅, ∅⟩, w)).1.cmds.lookup name = some ⟨usage, a, cb⟩ := by
    intro a
    rw [List.foldl_append, List.foldl_cons, foldl_cmds_lookup post _ name hpost]
    simp only [Decl.run, Finmap.lookup_insert]
  have hother : ∀ (a : Int) (m : String), m ≠ name →
      ((pre ++ Decl.command name usage a cb :: post).foldl Decl.run
        (⟨∅, ∅⟩, w)).1.cmds.lookup m =
      ((pre ++ Decl.command name usage argsNum cb :: post).foldl Decl.run
        (⟨∅, ∅⟩, w)).1.cmds.lookup m := by
    intro a m hm
    rw [List.foldl_append, List.foldl_cons, List.foldl_append, List.foldl_cons]
    apply foldl_cmds_lookup_congr
    simp only [Decl.run, Finmap.lookup_insert_of_ne _ hm]
  have hopts : ∀ a : Int, ((pre ++ Decl.command name usage a cb :: post).foldl Decl.run
      (⟨∅, ∅⟩, w)).1.opts =
      ((pre ++ Decl.command name usage argsNum cb :: post).foldl Decl.run
        (⟨∅, ∅⟩, w)).1.opts := by
    intro a
    rw [List.foldl_append, List.foldl_cons, List.foldl_append, List.foldl_cons]
    exact foldl_opts_congr post _ _ rfl
  have hopt0 : optionsFresh (pre ++ Decl.command name usage 0 cb :: post) w := by
    unfold optionsFresh optionNames at hopt ⊢
    simp only [List.filterMap_append, List.filterMap_cons, Decl.optionName] at hopt ⊢
    exact hopt
  refine ⟨_, _, (build_ok_iff _ w _ _).mpr ⟨hopt, rfl, rfl⟩, hl argsNum, ?_,
    _, _, (build_ok_iff _ w _ _).mpr ⟨hopt0, rfl, rfl⟩, ?_⟩
  · intro wr w2 args hp ha
    rw [Run_of_parse _ hp ha, hl argsNum]
    simp only [gt_iff_lt]
    rw [if_neg]
    rintro ⟨-, hlt⟩
    omega
  · intro wr
    unfold CLI.Run
    cases hparse : flag.Parse wr with
    | error h => rfl
    | ok w2 =>
      simp only
      cases hargs : flag.Args w2 with
      | nil => rfl
      | cons first args =>
        simp only
        by_cases hfn : first = name
        · subst hfn
          rw [hl 0, hl argsNum, hopts 0]
          simp only [gt_iff_lt]
          rw [if_neg, if_neg]
          · rintro ⟨-, hlt⟩
            omega
          · rintro ⟨h0, -⟩
            exact h0 rfl
        · rw [hother 0 first hfn, hopts 0]

/-- Witness of `Run_negative_args`: the command `neg` with `argsNum = -3`. -/
theorem Run_negative_args_witness :
    ∃ cli w1, build negSteps (World.fresh "prog" ["neg"] []) = Except.ok (cli, w1) ∧
      cli.cmds.lookup "neg" = some ⟨"negative", -3, recordArgs⟩ ∧
      (∀ (wr w2 : World (List (List String))) (args : List String),
        flag.Parse wr = Except.ok w2 → flag.Args w2 = "neg" :: args →
        cli.Run wr = recordArgs cli.opts args w2) ∧
      ∃ cli0 w0, build [Decl.command "neg" "negative" 0 recordArgs]
          (World.fresh "prog" ["neg"] []) = Except.ok (cli0, w0) ∧
        ∀ wr, cli0.Run wr = cli.Run wr :=
  Run_negative_args [] [] "neg" "negative" (-3) recordArgs (World.fresh "prog" ["neg"] [])
    (by decide) (by decide) (by decide)

/-- The command `neg`, declared with `argsNum = -3`, run with no argument:
the callback is invoked with the empty argument list and `Run` returns nil. -/
theorem negative_args_sample :
    ∃ cli w1, build negSteps (World.fresh "prog" ["neg"] []) = Except.ok (cli, w1) ∧
      cli.Run w1 = Except.ok (none, { w1 with flags := ⟨∅, ["neg"]⟩, user := [[]] }) :=
  ⟨_, _, rfl, rfl⟩

/-! ## Independence of the two registries -/

/-- Claim C13. On every `CLI` (its maps made, as by `New`), in every state and
for every name:
`WithCommand(name, ...)` returns, leaves the option registry, the process
state and every command entry other than `name` as they were, and makes the
entry of `name` the declared command.  Whenever `WithBoolOption(name, ...)`
returns, it leaves the command registry and every option entry other than
`name` as they were, and makes the entry of `name` the declared option; it
returns exactly when `flag.Bool` accepts the name.  Hence, for a name that
`flag.Bool` accepts, after both steps in either order the command `name` and
the option `name` are both registered. -/
theorem steps_frame {σ : Type} (name usage : String) (argsNum : Int) (cb : CommandCallback σ)
    (usage2 : String) (value : Bool) (s : CLI σ × World σ) :
    (∃ s1, WithCommand name usage argsNum cb s = Except.ok s1 ∧
        s1.1.opts = s.1.opts ∧ s1.2 = s.2 ∧
        s1.1.cmds.lookup name = some ⟨usage, argsNum, cb⟩ ∧
        ∀ m, m ≠ name → s1.1.cmds.lookup m = s.1.cmds.lookup m) ∧
      (∀ s1, WithBoolOption name usage2 value s = Except.ok s1 →
        s1.1.cmds = s.1.cmds ∧
        s1.1.opts.lookup name = some ⟨usage2, Iface.boolPtr name⟩ ∧
        ∀ m, m ≠ name → s1.1.opts.lookup m = s.1.opts.lookup m) ∧
      ((∃ s1, WithBoolOption name usage2 value s = Except.ok s1) ↔
        validFlagName name ∧ name ∉ s.2.flags.formal) ∧
      (validFlagName name → name ∉ s.2.flags.formal →
        (∃ s2, applyElems [WithCommand name usage argsNum cb,
            WithBoolOption name usage2 value] s = Except.ok s2 ∧
          s2.1.cmds.lookup name = some ⟨usage, argsNum, cb⟩ ∧
          s2.1.opts.lookup name = some ⟨usage2, Iface.boolPtr name⟩) ∧
        (∃ s2, applyElems [WithBoolOption name usage2 value,
            WithCommand name usage argsNum cb] s = Except.ok s2 ∧
          s2.1.cmds.lookup name = some ⟨usage, argsNum, cb⟩ ∧
          s2.1.opts.lookup name = some ⟨usage2, Iface.boolPtr name⟩)) := by
  have hiff : ∀ s1, WithBoolOption name usage2 value s = Except.ok s1 ↔
      (validFlagName name ∧ name ∉ s.2.flags.formal) ∧
        s1 = (Decl.boolOption name usage2 value : Decl σ).run s :=
    fun s1 => toElement_ok_iff (Decl.boolOption name usage2 value) s s1
  refine ⟨⟨(Decl.command name usage argsNum cb : Decl σ).run s, rfl, rfl, rfl,
      Finmap.lookup_insert _, fun m hm => Finmap.lookup_insert_of_ne _ hm⟩, ?_, ?_, ?_⟩
  · intro s1 h1
    obtain ⟨-, rfl⟩ := (hiff s1).mp h1
    exact ⟨rfl, Finmap.lookup_insert _, fun m hm => Finmap.lookup_insert_of_ne _ hm⟩
  · constructor
    · rintro ⟨s1, h1⟩
      exact ((hiff s1).mp h1).1
    · intro hacc
      exact ⟨_, (hiff _).mpr ⟨hacc, rfl⟩⟩
  · intro hv hf
    have hopt : WithBoolOption name usage2 value s =
        Except.ok ((Decl.boolOption name usage2 value : Decl σ).run s) :=
      toElement_accepted (Decl.boolOption name usage2 value) s ⟨hv, hf⟩
    have hopt2 : WithBoolOption name usage2 value
        ((Decl.command name usage argsNum cb : Decl σ).run s) =
        Except.ok ((Decl.boolOption name usage2 value : Decl σ).run
          ((Decl.command name usage argsNum cb : Decl σ).run s)) :=
      toElement_accepted (Decl.boolOption name usage2 value) _ ⟨hv, hf⟩
    refine ⟨⟨(Decl.boolOption name usage2 value : Decl σ).run
        ((Decl.command name usage argsNum cb : Decl σ).run s), ?_,
        Finmap.lookup_insert _, Finmap.lookup_insert _⟩,
      ⟨(Decl.command name usage argsNum cb : Decl σ).run
        ((Decl.boolOption name usage2 value : Decl σ).run s), ?_,
        Finmap.lookup_insert _, Finmap.lookup_insert _⟩⟩
    · show applyElems [(Decl.command name usage argsNum cb : Decl σ).toElement,
        WithBoolOption name usage2 value] s = _
      simp only [applyElems, toElement_accepted (Decl.command name usage argsNum cb) s trivial,
        hopt2]
    · show applyElems [WithBoolOption name usage2 value,
        (Decl.command name usage argsNum cb : Decl σ).toElement] s = _
      simp only [applyElems, hopt,
        toElement_accepted (Decl.command name usage argsNum cb) _ trivial]

/-- Witness of `steps_frame`.  First: on the `CLI` built from `greetSteps`,
which holds the option and the flag `loud`, the command `loud` is registered
and the option registry and the state are left as they were.  Second: a
command and an option, both named `x`, on the empty `CLI` of a process that
registered no flag, are both registered, in either order. -/
theorem steps_frame_witness :
    (∃ s1, WithCommand "loud" "the command" 0 recordArgs (greetCLI, greetWorld [] false []) =
          Except.ok s1 ∧
        s1.1.opts = greetCLI.opts ∧ s1.2 = greetWorld [] false [] ∧
        s1.1.cmds.lookup "loud" = some ⟨"the command", 0, recordArgs⟩ ∧
        ∀ m, m ≠ "loud" → s1.1.cmds.lookup m = greetCLI.cmds.lookup m) ∧
      ((∃ s2, applyElems [WithCommand "x" "the command" 0 recordArgs,
          WithBoolOption "x" "the option" true] (⟨∅, ∅⟩, World.fresh "prog" [] []) =
          Except.ok s2 ∧
        s2.1.cmds.lookup "x" = some ⟨"the command", 0, recordArgs⟩ ∧
        s2.1.opts.lookup "x" = some ⟨"the option", Iface.boolPtr "x"⟩) ∧
      (∃ s2, applyElems [WithBoolOption "x" "the option" true,
          WithCommand "x" "the command" 0 recordArgs] (⟨∅, ∅⟩, World.fresh "prog" [] []) =
          Except.ok s2 ∧
        s2.1.cmds.lookup "x" = some ⟨"the command", 0, recordArgs⟩ ∧
        s2.1.opts.lookup "x" = some ⟨"the option", Iface.boolPtr "x"⟩)) :=
  ⟨(steps_frame "loud" "the command" 0 recordArgs "the option" true
      (greetCLI, greetWorld [] false [])).1,
    (steps_frame "x" "the command" 0 recordArgs "the option" true
      (⟨∅, ∅⟩, World.fresh "prog" [] [])).2.2.2 (by decide) (by decide)⟩

/-- A command and an option of the same name are both registered. -/
theorem shared_name_sample :
    ∃ cli w1, build sharedSteps (World.fresh "prog" [] []) = Except.ok (cli, w1) ∧
      cli.cmds.lookup "x" = some ⟨"the command", 0, recordArgs⟩ ∧
      cli.opts.lookup "x" = some ⟨"the option", Iface.boolPtr "x"⟩ ∧
      GetBoolOption cli.opts "x" w1 = Except.ok true :=
  ⟨_, _, rfl, rfl, rfl, rfl⟩

/-! ## The usage text -/


/-- The usage closure writes the usage line, the heading of the commands, the
command lines, the heading of the options, the defaults and an empty line. -/
theorem Usage_installed {σ : Type} (w : World σ) (lines : Multiset (String × String))
    (h : w.usage = flag.UsageFn.installed lines) :
    (flag.Usage w).stderr = w.stderr ++
      [flag.Out.str ("Usage: " ++ filepath.Base w.prog ++ " [option...] command [arg...]\n"),
       flag.Out.str "\nCommand is one of:\n\n",
       flag.Out.unordered (lines.map (fun l => l.1 ++ " - " ++ l.2 ++ "\n")),
       flag.Out.str "\nOptions:\n\n",
       flag.Out.printDefaults w.flags.formal,
       flag.Out.str "\n"] := by
  unfold flag.Usage
  rw [h]
  simp only [flag.PrintDefaults, List.append_assoc, List.cons_append, List.nil_append]

/-- The text of the six writes of the usage closure. -/
theorem render_usage (ord : Multiset String → List String) (pd : flag.FlagTable → String)
    (pe : flag.ParseErr → String) (pv : Panic → String) (usageLine : String)
    (lines : Multiset String) (formal : flag.FlagTable) :
    flag.render ord pd pe pv
      [flag.Out.str usageLine, flag.Out.str "\nCommand is one of:\n\n",
       flag.Out.unordered lines, flag.Out.str "\nOptions:\n\n",
       flag.Out.printDefaults formal, flag.Out.str "\n"] =
      printedUsage usageLine (String.join (ord lines)) (pd formal) := by
  simp only [flag.render, flag.Out.text, printedUsage, String.append_assoc, String.append_empty]

/-- Claim C11, refuted as stated. For the `CLI` built from `greetSteps` the
usage closure writes the six pieces listed, and for no order of the command
lines and no rendering of the option defaults is the text written the
documented one: the written text has an empty line after the line
`Command is one of:` and after the line `Options:`, which the documented
shape does not have. -/
theorem Usage_not_documented :
    build greetSteps (World.fresh "prog" [] []) =
        Except.ok (greetCLI, greetWorld [] false []) ∧
      (flag.Usage (greetWorld [] false [])).stderr =
        [flag.Out.str "Usage: prog [option...] command [arg...]\n",
         flag.Out.str "\nCommand is one of:\n\n",
         flag.Out.unordered {"greet - say hello\n"},
         flag.Out.str "\nOptions:\n\n",
         flag.Out.printDefaults ((∅ : flag.FlagTable).insert "loud" ⟨"shout", "false", false⟩),
         flag.Out.str "\n"] ∧
      ¬ ∃ (ord : Multiset String → List String) (pd : flag.FlagTable → String)
          (pe : flag.ParseErr → String) (pv : Panic → String),
        flag.render ord pd pe pv (flag.Usage (greetWorld [] false [])).stderr =
          documentedUsage "Usage: prog [option...] command [arg...]\n"
            (String.join (ord {"greet - say hello\n"}))
            (pd ((∅ : flag.FlagTable).insert "loud" ⟨"shout", "false", false⟩)) := by
  have hs : (flag.Usage (greetWorld [] false [])).stderr =
      [flag.Out.str "Usage: prog [option...] command [arg...]\n",
       flag.Out.str "\nCommand is one of:\n\n",
       flag.Out.unordered {"greet - say hello\n"},
       flag.Out.str "\nOptions:\n\n",
       flag.Out.printDefaults ((∅ : flag.FlagTable).insert "loud" ⟨"shout", "false", false⟩),
       flag.Out.str "\n"] := rfl
  refine ⟨rfl, hs, ?_⟩
  rintro ⟨ord, pd, pe, pv, h⟩
  rw [hs, render_usage] at h
  have hlen := congrArg String.length h
  simp only [printedUsage, documentedUsage, String.length_append] at hlen
  have h1 : "\nCommand is one of:\n\n".length = 21 := rfl
  have h2 : "\nCommand is one of:\n".length = 20 := rfl
  have h3 : "\nOptions:\n\n".length = 11 := rfl
  have h4 : "\nOptions:\n".length = 10 := rfl
  rw [h1, h2, h3, h4] at hlen
  omega

/-- Claim C11, amended. For a built `CLI`, in every state in which the usage
closure of the build is still installed, `flag.Usage()` writes: the line
`Usage: p [option...] command [arg...]` with `p` the base name of the
program, an empty line, the line `Command is one of:`, an empty line, one
line `name - usage` per entry of the command registry in some order, an empty
line, the line `Options:`, an empty line, the option defaults as
`flag.PrintDefaults` renders them, and an empty line.  The entries of the
command registry have pairwise distinct names, the names are exactly those of
the `WithCommand` steps, and the entry of a name is its last declaration. -/
theorem Usage_shape {σ : Type} (steps : List (Decl σ)) (w : World σ) (cli : CLI σ)
    (w1 w2 : World σ) (hb : build steps w = Except.ok (cli, w1))
    (hu : w2.usage = w1.usage) :
    (flag.Usage w2).stderr = w2.stderr ++
        [flag.Out.str ("Usage: " ++ filepath.Base w2.prog ++ " [option...] command [arg...]\n"),
         flag.Out.str "\nCommand is one of:\n\n",
         flag.Out.unordered (cli.cmds.entries.map commandLine),
         flag.Out.str "\nOptions:\n\n",
         flag.Out.printDefaults w2.flags.formal,
         flag.Out.str "\n"] ∧
      (∀ (ord : Multiset String → List String) (pd : flag.FlagTable → String)
          (pe : flag.ParseErr → String) (pv : Panic → String),
        flag.render ord pd pe pv
          [flag.Out.str ("Usage: " ++ filepath.Base w2.prog ++ " [option...] command [arg...]\n"),
           flag.Out.str "\nCommand is one of:\n\n",
           flag.Out.unordered (cli.cmds.entries.map commandLine),
           flag.Out.str "\nOptions:\n\n",
           flag.Out.printDefaults w2.flags.formal,
           flag.Out.str "\n"] =
          printedUsage ("Usage: " ++ filepath.Base w2.prog ++ " [option...] command [arg...]\n")
            (String.join (ord (cli.cmds.entries.map commandLine))) (pd w2.flags.formal)) ∧
      Multiset.card (cli.cmds.entries.map commandLine) = cli.cmds.keys.card ∧
      cli.cmds.entries.keys.Nodup ∧
      (∀ n, n ∈ cli.cmds.entries.keys ↔ n ∈ commandNames steps) ∧
      (∀ n cmd, (⟨n, cmd⟩ : Sigma (fun _ : String => command σ)) ∈ cli.cmds.entries ↔
        cli.cmds.lookup n = some cmd) ∧
      (∀ pre post n u a cb, steps = pre ++ Decl.command n u a cb :: post →
        n ∉ commandNames post →
        (⟨n, ⟨u, a, cb⟩⟩ : Sigma (fun _ : String => command σ)) ∈ cli.cmds.entries) := by
  obtain ⟨-, hc, hw⟩ := (build_ok_iff steps w cli w1).mp hb
  have husage : w2.usage =
      flag.UsageFn.installed (cli.cmds.entries.map (fun e => (e.1, e.2.usage))) := by
    rw [hu, hw]
  have hlookup : ∀ n cmd, (⟨n, cmd⟩ : Sigma (fun _ : String => command σ)) ∈ cli.cmds.entries ↔
      cli.cmds.lookup n = some cmd := by
    intro n cmd
    rw [← Finmap.mem_lookup_iff]
    exact Option.mem_def
  refine ⟨?_, fun ord pd pe pv => render_usage ord pd pe pv _ _ _, ?_, ?_, ?_, hlookup, ?_⟩
  · rw [Usage_installed w2 _ husage, Multiset.map_map]
    rfl
  · rw [Multiset.card_map, Finset.card_def]
    show Multiset.card cli.cmds.entries = Multiset.card cli.cmds.entries.keys
    unfold Multiset.keys
    rw [Multiset.card_map]
  · exact Multiset.nodup_keys.mpr cli.cmds.nodupKeys
  · intro n
    rw [← Finmap.mem_def, hc, foldl_cmds_mem]
    simp only [Finmap.not_mem_empty, false_or]
  · intro pre post n u a cb hsteps hpost
    rw [hlookup, hc, hsteps, List.foldl_append, List.foldl_cons,
      foldl_cmds_lookup post _ n hpost]
    simp only [Decl.run, Finmap.lookup_insert]

/-- Witness of `Usage_shape`: the `CLI` built from `greetSteps`, in the state
after `--loud greet world` was parsed. -/
theorem Usage_shape_witness :
    (flag.Usage (greetWorld ["--loud", "greet", "world"] true ["greet", "world"])).stderr =
        (greetWorld ["--loud", "greet", "world"] true ["greet", "world"]).stderr ++
        [flag.Out.str ("Usage: " ++ filepath.Base
            (greetWorld ["--loud", "greet", "world"] true ["greet", "world"]).prog ++
            " [option...] command [arg...]\n"),
         flag.Out.str "\nCommand is one of:\n\n",
         flag.Out.unordered (greetCLI.cmds.entries.map commandLine),
         flag.Out.str "\nOptions:\n\n",
         flag.Out.printDefaults
           (greetWorld ["--loud", "greet", "world"] true ["greet", "world"]).flags.formal,
         flag.Out.str "\n"] ∧
      (∀ (ord : Multiset String → List String) (pd : flag.FlagTable → String)
          (pe : flag.ParseErr → String) (pv : Panic → String),
        flag.render ord pd pe pv
          [flag.Out.str ("Usage: " ++ filepath.Base
              (greetWorld ["--loud", "greet", "world"] true ["greet", "world"]).prog ++
              " [option...] command [arg...]\n"),
           flag.Out.str "\nCommand is one of:\n\n",
           flag.Out.unordered (greetCLI.cmds.entries.map commandLine),
           flag.Out.str "\nOptions:\n\n",
           flag.Out.printDefaults
             (greetWorld ["--loud", "greet", "world"] true ["greet", "world"]).flags.formal,
           flag.Out.str "\n"] =
          printedUsage ("Usage: " ++ filepath.Base
              (greetWorld ["--loud", "greet", "world"] true ["greet", "world"]).prog ++
              " [option...] command [arg...]\n")
            (String.join (ord (greetCLI.cmds.entries.map commandLine)))
            (pd (greetWorld ["--loud", "greet", "world"] true
              ["greet", "world"]).flags.formal)) ∧
      Multiset.card (greetCLI.cmds.entries.map commandLine) = greetCLI.cmds.keys.card ∧
      greetCLI.cmds.entries.keys.Nodup ∧
      (∀ n, n ∈ greetCLI.cmds.entries.keys ↔ n ∈ commandNames greetSteps) ∧
      (∀ n cmd, (⟨n, cmd⟩ : Sigma (fun _ : String => command (List (List String)))) ∈
          greetCLI.cmds.entries ↔ greetCLI.cmds.lookup n = some cmd) ∧
      (∀ pre post n u a cb, greetSteps = pre ++ Decl.command n u a cb :: post →
        n ∉ commandNames post →
        (⟨n, ⟨u, a, cb⟩⟩ : Sigma (fun _ : String => command (List (List String)))) ∈
          greetCLI.cmds.entries) :=
  Usage_shape greetSteps (World.fresh "prog" ["--loud", "greet", "world"] []) greetCLI
    (greetWorld ["--loud", "greet", "world"] false [])
    (greetWorld ["--loud", "greet", "world"] true ["greet", "world"]) rfl rfl

/-! ## No command given -/

/-- The state the usage closure leaves: the six writes are appended to the
standard error stream and nothing else changes. -/
theorem Usage_installed_state {σ : Type} (w : World σ) (lines : Multiset (String × String))
    (h : w.usage = flag.UsageFn.installed lines) :
    flag.Usage w = { w with stderr := w.stderr ++
      [flag.Out.str ("Usage: " ++ filepath.Base w.prog ++ " [option...] command [arg...]\n"),
       flag.Out.str "\nCommand is one of:\n\n",
       flag.Out.unordered (lines.map (fun l => l.1 ++ " - " ++ l.2 ++ "\n")),
       flag.Out.str "\nOptions:\n\n",
       flag.Out.printDefaults w.flags.formal,
       flag.Out.str "\n"] } := by
  unfold flag.Usage
  rw [h]
  simp only [flag.PrintDefaults, List.append_assoc, List.cons_append, List.nil_append]

/-- Claim C5. Let `cli` be built by `New`, and let `Run` start in a state `w`
in which the usage closure of that build is installed.  When parsing succeeds
and leaves no argument, `Run` writes the usage text of the closure to the
standard error stream (the usage line with the base name of the program, the
heading `Command is one of:`, one line per registered command, the heading
`Options:`, the option defaults, an empty line) and exits with status 1 in
the state the parse left, changed in nothing else: nothing is returned to the
caller, and the callback state is the one before `Run`. -/
theorem Run_no_command {σ : Type} (steps : List (Decl σ)) (w0 : World σ) (cli : CLI σ)
    (wb w w1 : World σ) (hb : build steps w0 = Except.ok (cli, wb))
    (hu : w.usage = wb.usage) (hp : flag.Parse w = Except.ok w1)
    (ha : flag.Args w1 = []) :
    cli.Run w = Except.error (Halt.exit 1 { w1 with stderr := w.stderr ++
        [flag.Out.str ("Usage: " ++ filepath.Base w.prog ++ " [option...] command [arg...]\n"),
         flag.Out.str "\nCommand is one of:\n\n",
         flag.Out.unordered (cli.cmds.entries.map commandLine),
         flag.Out.str "\nOptions:\n\n",
         flag.Out.printDefaults w1.flags.formal,
         flag.Out.str "\n"] }) ∧
      w1.user = w.user := by
  obtain ⟨-, -, hw⟩ := (build_ok_iff steps w0 cli wb).mp hb
  have hframe := Parse_frame hp
  have husage : w1.usage =
      flag.UsageFn.installed (cli.cmds.entries.map (fun e => (e.1, e.2.usage))) := by
    rw [hframe]
    show w.usage = _
    rw [hu, hw]
  have hstderr : w1.stderr = w.stderr := by rw [hframe]
  have hprog : w1.prog = w.prog := by rw [hframe]
  refine ⟨?_, by rw [hframe]⟩
  rw [Run_of_parse_nil cli hp ha, Usage_installed_state w1 _ husage, Multiset.map_map,
    hstderr, hprog]
  rfl

/-- Witness of `Run_no_command`: the `CLI` built from `greetSteps`, run on the
argument vector `--loud`, which the parser consumes whole. -/
theorem Run_no_command_witness :
    greetCLI.Run (greetWorld ["--loud"] false []) =
        Except.error (Halt.exit 1 { greetWorld ["--loud"] true [] with stderr :=
          [flag.Out.str "Usage: prog [option...] command [arg...]\n",
           flag.Out.str "\nCommand is one of:\n\n",
           flag.Out.unordered {"greet - say hello\n"},
           flag.Out.str "\nOptions:\n\n",
           flag.Out.printDefaults ((∅ : flag.FlagTable).insert "loud" ⟨"shout", "false", true⟩),
           flag.Out.str "\n"] }) ∧
      (greetWorld ["--loud"] true []).user = (greetWorld ["--loud"] false []).user :=
  Run_no_command greetSteps (World.fresh "prog" ["--loud"] []) greetCLI
    (greetWorld ["--loud"] false []) (greetWorld ["--loud"] false [])
    (greetWorld ["--loud"] true []) rfl rfl rfl rfl

end cli
